import Mathlib

/-!
# Meridio load balancer (`third_party/lb`): Maglev table, modulo table, packet classifier

A shallow embedding of `maglev.c` / `lb.c`.

Conventions of the embedding:

* C arrays of fixed size (`lookup[MAX_M]`, `permutation[MAX_N][MAX_M]`, `active[MAX_N]`,
  `next[MAX_N]`, the packet buffer) are total functions from the index to the stored value.
  An access whose index is outside the declared array bound makes the embedded function
  return `none`.
* `unsigned` values are `Nat`, `int` values are `Int`.  Reduction modulo `2 ^ 32` is written
  out where a computation can exceed 32 bits (`initMagData`, `djb2_hash`, the returned mark,
  the `int` subtraction of `setActivate`).
  Counters that the code keeps below `MAX_M` / `MAX_N` (`n`, `next[i]`, `nActive`) are plain
  `Nat`.
-/

namespace Maglev

/-- Value of `MAX_M` in `maglev.h`. -/
def MAX_M : Nat := 10000

/-- Value of `MAX_N` in `maglev.h`. -/
def MAX_N : Nat := 100

/-- Mirror of `struct MagData` in `maglev.h`. -/
structure MagData where
  M : Nat
  N : Nat
  lookup : Nat → Int
  permutation : Nat → Nat → Nat
  active : Nat → Nat

/-- Store `v` at index `c` of an array. -/
def setAt {α : Type} (f : Nat → α) (c : Nat) (v : α) : Nat → α :=
  fun x => if x = c then v else f x

/-- One row of `initMagData` (`maglev.c:18-20`):
`permutation[i][j] = (offset + j * skip) % M`, with the product and the sum in
32-bit unsigned arithmetic; entries at `j >= M` keep the zero written by `memset`. -/
def initRow (M offset skip : Nat) : Nat → Nat :=
  fun j => if j < M then ((offset + (j * skip) % 2 ^ 32) % 2 ^ 32) % M else 0

/-- Embedding of `initMagData` (`maglev.c:9-22`).  `rand k` is the value returned by the
`k`-th call of `rand()`; row `i` uses calls `2 * i` (offset) and `2 * i + 1` (skip).  The
only caller, `cmdCreate`, passes `m >= 19`, so the divisions by `m` and `m - 1` are
defined. -/
def initMagData (m n : Nat) (rand : Nat → Nat) : MagData where
  M := m
  N := n
  lookup := fun _ => 0
  permutation := fun i j =>
    if i < n then initRow m (rand (2 * i) % m) (rand (2 * i + 1) % (m - 1) + 1) j else 0
  active := fun _ => 0

/-- Local variables of the assignment loop of `populate`, with the table being written. -/
structure PopState where
  lookup : Nat → Int
  next : Nat → Nat
  n : Nat

/-- The counting loop `maglev.c:31-34` run for `i = 0 .. k-1`. -/
def countActive (active : Nat → Nat) : Nat → Nat
  | 0 => 0
  | k + 1 => if active k ≠ 0 then countActive active k + 1 else countActive active k

/-- The `while (d->lookup[c] >= 0)` loop of `maglev.c:43-47` for backend `i`, started at
cursor `nx`: returns the first cursor value whose bucket is free.  Reading
`permutation[i][nx]` needs `nx < MAX_M`, reading `lookup[c]` needs `c < MAX_M`; otherwise
the result is `none`.  The first argument bounds the number of iterations; the cursor grows
by one per iteration, so `MAX_M` iterations suffice for every in-bounds run. -/
def skipTaken (d : MagData) (lookup : Nat → Int) (i : Nat) : Nat → Nat → Option Nat
  | 0, _ => none
  | fuel + 1, nx =>
    if nx < MAX_M then
      let c := d.permutation i nx
      if c < MAX_M then
        if 0 ≤ lookup c then skipTaken d lookup i fuel (nx + 1) else some nx
      else none
    else none

/-- The statements `maglev.c:48-50` for backend `i` whose cursor stopped at `nx`:
`lookup[permutation[i][nx]] = i; next[i] = nx + 1; n = n + 1`. -/
def assign (d : MagData) (s : PopState) (i nx : Nat) : PopState :=
  { lookup := setAt s.lookup (d.permutation i nx) (i : Int)
    next := setAt s.next i (nx + 1)
    n := s.n + 1 }

/-- The inner `for (int i = 0; i < d->N; i++)` loop of `maglev.c:41-52`, with `k`
iterations left and loop variable `i`.  The Boolean is `true` when the loop left through
`if (n == d->M) return;`. -/
def innerFor (d : MagData) : Nat → Nat → PopState → Option (Bool × PopState)
  | 0, _, s => some (false, s)
  | k + 1, i, s =>
    if d.active i = 0 then innerFor d k (i + 1) s
    else
      match skipTaken d s.lookup i MAX_M (s.next i) with
      | none => none
      | some nx =>
        let s1 := assign d s i nx
        if s1.n = d.M then some (true, s1) else innerFor d k (i + 1) s1

/-- The `for (;;)` loop of `maglev.c:40-53`, at most `fuel` rounds. -/
def outerLoop (d : MagData) : Nat → PopState → Option PopState
  | 0, _ => none
  | fuel + 1, s =>
    match innerFor d d.N 0 s with
    | none => none
    | some (true, s1) => some s1
    | some (false, s1) => outerLoop d fuel s1

/-- Embedding of `populate` (`maglev.c:24-54`).  `none` stands for a run that leaves the
arrays of `struct MagData` or does not return.  With at least one active backend every round
of the `for (;;)` loop that does not return assigns at least one bucket and the loop returns
exactly when `n` reaches `M`, so `M` rounds are all a returning run can use. -/
def populate (d : MagData) : Option MagData :=
  if d.M ≤ MAX_M ∧ d.N ≤ MAX_N then
    let lookup0 : Nat → Int := fun c => if c < d.M then -1 else d.lookup c
    if countActive d.active d.N = 0 then some { d with lookup := lookup0 }
    else
      (outerLoop d d.M { lookup := lookup0, next := fun _ => 0, n := 0 }).map
        (fun s => { d with lookup := s.lookup })
  else none

/-- The table `lookup[0..M)` as a list. -/
def lookupList (d : MagData) : List Int := (List.range d.M).map d.lookup

/-- Row `i` of the permutation table, `permutation[i][0..M)`, as a list. -/
def permRow (d : MagData) (i : Nat) : List Nat := (List.range d.M).map (d.permutation i)

/-- Invariant (I2): every row `i < N` holds each value of `{0..M-1}` exactly once. -/
def PermInvariant (d : MagData) : Prop :=
  ∀ i, i < d.N → List.Perm (permRow d i) (List.range d.M)

/-- Number of buckets `c < M` with `lookup[c] = i`. -/
def bucketCount (d : MagData) (i : Nat) : Nat :=
  (List.range d.M).countP (fun c => decide (d.lookup c = (i : Int)))

/-- Invariant of the assignment loop, at loop variable `i0` of round `r`. -/
structure PopInv (d : MagData) (s : PopState) (i0 r : Nat) : Prop where
  range : ∀ c, c < d.M →
    s.lookup c = -1 ∨ ∃ a, a < d.N ∧ d.active a ≠ 0 ∧ s.lookup c = (a : Int)
  passed : ∀ a, a < d.N → ∀ j, j < s.next a → 0 ≤ s.lookup (d.permutation a j)
  filled : s.n = (List.range d.M).countP (fun c => decide (0 ≤ s.lookup c))
  share : ∀ a, a < d.N → d.active a ≠ 0 →
    (List.range d.M).countP (fun c => decide (s.lookup c = (a : Int)))
      = if a < i0 then r + 1 else r

/-- Bookkeeping of a run of `populate`: `advances` counts the executions of
`next[i] = next[i] + 1` (`maglev.c:45, 49`); `inBounds` stays `true` as long as every cursor
value used to read `permutation[i][next[i]]` and every bucket index used to read or write
`lookup[c]` is below `M`. -/
structure Trace where
  advances : Nat
  inBounds : Bool

/-- The loop `skipTaken` with bookkeeping: every iteration reads `permutation[i][nx]` and
`lookup[c]`; a taken bucket advances the cursor. -/
def skipTakenT (d : MagData) (lookup : Nat → Int) (i : Nat) :
    Nat → Nat → Trace → Option (Nat × Trace)
  | 0, _, _ => none
  | fuel + 1, nx, t =>
    if nx < MAX_M then
      let c := d.permutation i nx
      if c < MAX_M then
        let t1 : Trace :=
          { t with inBounds := t.inBounds && decide (nx < d.M) && decide (c < d.M) }
        if 0 ≤ lookup c then
          skipTakenT d lookup i fuel (nx + 1) { t1 with advances := t1.advances + 1 }
        else some (nx, t1)
      else none
    else none

/-- The loop `innerFor` with bookkeeping; the write `lookup[c] = i` uses the bucket index
that the last iteration of `skipTakenT` read, and `next[i] = next[i] + 1` is one more
advance. -/
def innerForT (d : MagData) : Nat → Nat → PopState → Trace → Option (Bool × PopState × Trace)
  | 0, _, s, t => some (false, s, t)
  | k + 1, i, s, t =>
    if d.active i = 0 then innerForT d k (i + 1) s t
    else
      match skipTakenT d s.lookup i MAX_M (s.next i) t with
      | none => none
      | some (nx, t1) =>
        let s1 := assign d s i nx
        let t2 : Trace := { t1 with advances := t1.advances + 1 }
        if s1.n = d.M then some (true, s1, t2) else innerForT d k (i + 1) s1 t2

/-- The loop `outerLoop` with bookkeeping. -/
def outerLoopT (d : MagData) : Nat → PopState → Trace → Option (PopState × Trace)
  | 0, _, _ => none
  | fuel + 1, s, t =>
    match innerForT d d.N 0 s t with
    | none => none
    | some (true, s1, t1) => some (s1, t1)
    | some (false, s1, t1) => outerLoopT d fuel s1 t1

/-- The function `populate` with bookkeeping; the initial loop writes `lookup[i]` for
`i < M` only and moves no cursor. -/
def populateT (d : MagData) : Option (MagData × Trace) :=
  if d.M ≤ MAX_M ∧ d.N ≤ MAX_N then
    let lookup0 : Nat → Int := fun c => if c < d.M then -1 else d.lookup c
    if countActive d.active d.N = 0 then
      some ({ d with lookup := lookup0 }, { advances := 0, inBounds := true })
    else
      (outerLoopT d d.M { lookup := lookup0, next := fun _ => 0, n := 0 }
          { advances := 0, inBounds := true }).map
        (fun r => ({ d with lookup := r.1.lookup }, r.2))
  else none

/-- Sum of the cursors `next[0..N)`. -/
def cursorSum (next : Nat → Nat) (N : Nat) : Nat := ((List.range N).map next).sum

/-- Invariant of the bookkeeping: all accesses so far were below `M`, the advances are the
sum of the cursors, and no cursor exceeds `M`. -/
structure TraceInv (d : MagData) (s : PopState) (t : Trace) : Prop where
  ok : t.inBounds = true
  total : t.advances = cursorSum s.next d.N
  cursor : ∀ a, a < d.N → s.next a ≤ d.M

/-- Two tables agree on what `populate` reads: `M`, `N`, the rows `permutation[i][0..M)`
for `i < N`, and for every `i < N` whether `active[i]` is zero. -/
structure Agree (d1 d2 : MagData) : Prop where
  eqM : d1.M = d2.M
  eqN : d1.N = d2.N
  eqPerm : ∀ i, i < d1.N → ∀ j, j < d1.M → d1.permutation i j = d2.permutation i j
  eqActive : ∀ i, i < d1.N → (d1.active i = 0 ↔ d2.active i = 0)

/-- Two loop states of `populate` for tables of size `M`, `N` hold the same `lookup[0..M)`,
the same cursors `next[0..N)` and the same count `n`. -/
structure SameState (M N : Nat) (s1 s2 : PopState) : Prop where
  eqLookup : ∀ c, c < M → s1.lookup c = s2.lookup c
  eqNext : ∀ a, a < N → s1.next a = s2.next a
  eqn : s1.n = s2.n

/-- Embedding of `initExample` (`maglev.c:89-120`), the example of the Maglev paper. -/
def initExample : MagData where
  M := 7
  N := 3
  lookup := fun _ => 0
  permutation := fun i j =>
    if i < 3 ∧ j < 7 then
      match i with
      | 0 => ((3 + (j * 4) % 2 ^ 32) % 2 ^ 32) % 7
      | 1 => ((0 + (j * 2) % 2 ^ 32) % 2 ^ 32) % 7
      | _ => ((3 + (j * 1) % 2 ^ 32) % 2 ^ 32) % 7
    else 0
  active := fun i => if i < 3 then 1 else 0

/-- The assignment `d->active[k] = v`. -/
def setActive (d : MagData) (k v : Nat) : MagData :=
  { d with active := setAt d.active k v }

end Maglev

namespace Lb

open Maglev

/-! ## `lb.c`: shared data, control commands -/

/-- The anonymous struct `modulo` of `struct SharedData` (`nfqueue-lb.h`).  `nActive` is an
`int` that the code only sets to `0` and increments at most `MAX_N` times. -/
structure ModuloAux where
  nActive : Nat
  lookup : Nat → Int

/-- Mirror of `struct SharedData` in `nfqueue-lb.h`. -/
structure SharedData where
  ownFwmark : Int
  fwOffset : Int
  magd : MagData
  modulo : ModuloAux

/-- Conversion of an `int` to `unsigned` / `uint32_t`. -/
def toU32 (z : Int) : Nat := (z % 2 ^ 32).toNat

/-- The table `primes100` of `lb.c:84-86`. -/
def primes100 : List Nat :=
  [2, 3, 5, 7, 11, 13, 17, 19, 23, 29, 31, 37, 41, 43, 47, 53, 59, 61, 67, 71, 73, 79, 83, 89, 97]

/-- The loop of `isPrime` (`lb.c:90-93`) over the remaining entries of `primes100`. -/
def isPrimeLoop (n : Nat) : List Nat → Bool
  | [] => true
  | p :: ps => if n ≤ p then true else if n % p = 0 then false else isPrimeLoop n ps

/-- Embedding of `isPrime` (`lb.c:88-95`). -/
def isPrime (n : Nat) : Bool := isPrimeLoop n primes100

/-- The `while (n > 1)` loop of `primeBelow` (`lb.c:101-104`); `n` decreases by 2 in every
iteration, so `n` iterations are never used up. -/
def primeBelowLoop : Nat → Nat → Nat
  | 0, n => n
  | fuel + 1, n => if 1 < n then (if isPrime n then n else primeBelowLoop fuel (n - 2)) else n

/-- Embedding of `primeBelow` (`lb.c:97-106`). -/
def primeBelow (n : Nat) : Nat :=
  if isPrime n then n else primeBelowLoop n (if n % 2 = 0 then n - 1 else n)

/-- The loop of `updateModulo` (`lb.c:111-116`) with `k` iterations left at index `i`. -/
def updateModuloLoop (active : Nat → Nat) : Nat → Nat → ModuloAux → ModuloAux
  | 0, _, m => m
  | k + 1, i, m =>
    if active i ≠ 0 then
      updateModuloLoop active k (i + 1)
        { nActive := m.nActive + 1, lookup := setAt m.lookup m.nActive (i : Int) }
    else updateModuloLoop active k (i + 1) m

/-- Embedding of `updateModulo` (`lb.c:108-117`): the scan runs over all `MAX_N` slots. -/
def updateModulo (sh : SharedData) : SharedData :=
  { sh with
    modulo := updateModuloLoop sh.magd.active MAX_N 0 { sh.modulo with nActive := 0 } }

/-- The table size chosen by `cmdCreate` (`lb.c:142-148`); `arg` is the value of
`atoi(argv[0])` when the argument is present. -/
def createM : Option Int → Nat
  | none => 997
  | some z =>
    let M := toU32 z
    let M := if M < 20 then 19 else M
    let M := if M > MAX_M then MAX_M else M
    primeBelow M

/-- The backend bound chosen by `cmdCreate` (`lb.c:142, 149-153`); `arg` is the value of
`atoi(argv[1])` when the argument is present. -/
def createN : Option Int → Nat
  | none => 10
  | some z =>
    let N := toU32 z
    let N := if N < 4 then 4 else N
    if N > MAX_N then MAX_N else N

/-- Embedding of `cmdCreate` (`lb.c:119-162`) up to the write of the region.  `i` and
`fwOffset` are the option values (`-1` and `1` by default), `args` the `atoi` values of the
positional arguments, `rand` the values returned by `rand()`, and `stack` the uninitialised
contents of `sh.modulo`. -/
def cmdCreate (i fwOffset : Int) (args : List Int) (rand : Nat → Nat) (stack : ModuloAux) :
    Option SharedData :=
  let M := createM args.head?
  let N := createN (args.tail.head?)
  let magd := initMagData M N rand
  let magd := { magd with active := fun k => if k < 4 then 1 else magd.active k }
  match populate magd with
  | none => none
  | some magd1 =>
    some (updateModulo { ownFwmark := i, fwOffset := fwOffset, magd := magd1, modulo := stack })

/-- Result of an arithmetic operation in the 32-bit type `int`: the exact value `z` reduced
to `[-2^31, 2^31)` modulo `2^32` (two's complement wraparound). -/
def toI32 (z : Int) : Int := (z + 2 ^ 31) % 2 ^ 32 - 2 ^ 31

/-- The value of `int i = atoi(*argv++) - sh->fwOffset` (`lb.c:200`) for the `atoi` value
`id`: the subtraction is done in 32-bit `int` and wraps on overflow. -/
def idIndex (fwOffset id : Int) : Int := toI32 (id - fwOffset)

/-- The `while (argc-- > 0)` loop of `setActivate` (`lb.c:199-202`) over the `atoi` values of
the arguments. -/
def setActivateLoop (fwOffset : Int) (N v : Nat) : List Int → (Nat → Nat) → (Nat → Nat)
  | [], active => active
  | id :: ids, active =>
    let i := idIndex fwOffset id
    if 0 ≤ i ∧ i.toNat < N then setActivateLoop fwOffset N v ids (setAt active i.toNat v)
    else setActivateLoop fwOffset N v ids active

/-- Embedding of `setActivate` (`lb.c:193-205`). -/
def setActivate (v : Nat) (ids : List Int) (sh : SharedData) : Option SharedData :=
  let m : MagData :=
    { sh.magd with active := setActivateLoop sh.fwOffset sh.magd.N v ids sh.magd.active }
  match populate m with
  | none => none
  | some m1 => some (updateModulo { sh with magd := m1 })

/-- Embedding of `cmdActivate` (`lb.c:206-210`). -/
def cmdActivate (ids : List Int) (sh : SharedData) : Option SharedData := setActivate 1 ids sh

/-- Embedding of `cmdDeactivate` (`lb.c:211-215`). -/
def cmdDeactivate (ids : List Int) (sh : SharedData) : Option SharedData := setActivate 0 ids sh

/-- A control command issued after `create`. -/
inductive ControlCmd where
  | activate (ids : List Int)
  | deactivate (ids : List Int)

/-- Run one control command on the shared region. -/
def runCommand : ControlCmd → SharedData → Option SharedData
  | ControlCmd.activate ids, sh => cmdActivate ids sh
  | ControlCmd.deactivate ids, sh => cmdDeactivate ids sh

/-- Run a sequence of control commands, first to last. -/
def runCommands : List ControlCmd → SharedData → Option SharedData
  | [], sh => some sh
  | c :: cs, sh => (runCommand c sh).bind (runCommands cs)

/-- The indices `i < n` with `active[i] != 0`, in increasing order. -/
def activeList (active : Nat → Nat) (n : Nat) : List Nat :=
  (List.range n).filter (fun i => decide (active i ≠ 0))

/-- Modulo consistency (P5): `nActive` is the number of active backends `i < N` and
`modulo.lookup[0..nActive)` lists them in increasing order. -/
def ModuloConsistent (sh : SharedData) : Prop :=
  sh.modulo.nActive = (activeList sh.magd.active sh.magd.N).length ∧
  (List.range sh.modulo.nActive).map sh.modulo.lookup
    = (activeList sh.magd.active sh.magd.N).map (fun (i : Nat) => (i : Int))

/-- Facts that hold in every state written by the control commands. -/
structure StateInv (sh : SharedData) : Prop where
  boundM1 : 1 ≤ sh.magd.M
  boundM : sh.magd.M ≤ MAX_M
  boundN : sh.magd.N ≤ MAX_N
  tail : ∀ j, sh.magd.N ≤ j → sh.magd.active j = 0
  perm : PermInvariant sh.magd
  modulo : ModuloConsistent sh

/-- The table `lookup[0..M)` of the state is what `populate` computes from the state. -/
def Populated (sh : SharedData) : Prop :=
  ∃ m, populate sh.magd = some m ∧ ∀ c, c < sh.magd.M → m.lookup c = sh.magd.lookup c

/-- The state `sh2` holds the same `lookup[0..M)`, `modulo.nActive` and
`modulo.lookup[0..nActive)` as the state `sh`. -/
def Restored (sh sh2 : SharedData) : Prop :=
  (∀ c, c < sh.magd.M → sh2.magd.lookup c = sh.magd.lookup c) ∧
  sh2.modulo.nActive = sh.modulo.nActive ∧
  (List.range sh.modulo.nActive).map sh2.modulo.lookup
    = (List.range sh.modulo.nActive).map sh.modulo.lookup

/-- The ids named by a control command. -/
def cmdIds : ControlCmd → List Int
  | ControlCmd.activate ids => ids
  | ControlCmd.deactivate ids => ids

/-! ## `lb.c`: packet handling -/

/-- Value of `ETH_P_IP` in `<linux/if_ether.h>`. -/
def ETH_P_IP : Nat := 0x0800

/-- Value of `ETH_P_IPV6` in `<linux/if_ether.h>`. -/
def ETH_P_IPV6 : Nat := 0x86DD

/-- Value of `IPPROTO_TCP` in `<netinet/in.h>`. -/
def IPPROTO_TCP : Nat := 6

/-- Value of `IPPROTO_ICMP` in `<netinet/in.h>`. -/
def IPPROTO_ICMP : Nat := 1

/-- Value of `ICMP_DEST_UNREACH` in `<netinet/ip_icmp.h>`. -/
def ICMP_DEST_UNREACH : Nat := 3

/-- Value of `IP_OFFMASK` in `<netinet/ip.h>`. -/
def IP_OFFMASK : Nat := 0x1fff

/-- Value of `IP_MF` in `<netinet/ip.h>`. -/
def IP_MF : Nat := 0x2000

/-- The byte `payload[j]` of the receive buffer (`uint8_t`). -/
def byteAt (payload : Nat → Nat) (j : Nat) : Nat := payload j % 256

/-- The loop of `djb2_hash` (`lb.c:244-245`) with `len` bytes left, reading at `pos`:
`hash = ((hash << 5) + hash) + *c++` in `uint32_t`. -/
def djb2_loop (c : Nat → Nat) : Nat → Nat → Nat → Nat
  | 0, _, hash => hash
  | len + 1, pos, hash =>
    djb2_loop c len (pos + 1) ((((hash * 2 ^ 5) % 2 ^ 32 + hash) % 2 ^ 32 + byteAt c pos) % 2 ^ 32)

/-- Embedding of `djb2_hash` (`lb.c:240-247`). -/
def djb2_hash (c : Nat → Nat) (len : Nat) : Nat := djb2_loop c len 0 5381

/-- Embedding of `get_maglev_mark` (`lb.c:230-233`); `none` for the division by `M = 0` and
for an index outside `lookup[MAX_M]`.  The `int` sum is converted to the `uint32_t` result. -/
def get_maglev_mark (sh : SharedData) (hash : Nat) : Option Nat :=
  if sh.magd.M = 0 then none
  else if hash % sh.magd.M < MAX_M then
    some (toU32 (sh.magd.lookup (hash % sh.magd.M) + sh.fwOffset))
  else none

/-- Embedding of `get_modulo_mark` (`lb.c:235-238`); `none` for the division by
`nActive = 0` and for an index outside `modulo.lookup[MAX_N]`. -/
def get_modulo_mark (sh : SharedData) (hash : Nat) : Option Nat :=
  if sh.modulo.nActive = 0 then none
  else if hash % sh.modulo.nActive < MAX_N then
    some (toU32 (sh.modulo.lookup (hash % sh.modulo.nActive) + sh.fwOffset))
  else none

/-- The value of `portlen` set by `cmdRun` (`lb.c:228, 407-409`): 4 with option `-p`. -/
def cmdRun_portlen (p : Bool) : Nat := if p then 4 else 0

/-- The `case ETH_P_IPV6` block of `handlePacket` (`lb.c:282-293`) followed by
`default:;` and the final `return 0`. -/
def ipv6Case (get_mark : Nat → Option Nat) (portlen : Nat) (payload : Nat → Nat) :
    Option Nat :=
  if byteAt payload 6 = IPPROTO_TCP then
    get_mark (djb2_hash (fun j => payload (8 + j)) (32 + portlen))
  else if byteAt payload 6 = IPPROTO_ICMP then
    if byteAt payload 20 = ICMP_DEST_UNREACH then some 0 else some 0
  else some 0

set_option linter.unusedVariables false in
/-- Embedding of `handlePacket` (`lb.c:252-298`).  `get_mark` and `portlen` are the static
variables set by `cmdRun`; `payload j` is the byte at `payload + j`, `plen` is not read by
the code.  The `case ETH_P_IP` block has no `break`: when it does not return it continues
with the `case ETH_P_IPV6` block. -/
def handlePacket (get_mark : Nat → Option Nat) (portlen : Nat) (protocol : Nat)
    (payload : Nat → Nat) (plen : Nat) : Option Nat :=
  if protocol = ETH_P_IP then
    if 5 < byteAt payload 0 % 16 then some 0
    else
      let frag := byteAt payload 6 * 256 + byteAt payload 7
      if frag &&& (IP_OFFMASK ||| IP_MF) ≠ 0 then some 0
      else if byteAt payload 9 = IPPROTO_TCP then
        get_mark (djb2_hash (fun j => payload (12 + j)) (8 + portlen))
      else if byteAt payload 9 = IPPROTO_ICMP then
        if byteAt payload 20 = ICMP_DEST_UNREACH then some 0
        else ipv6Case get_mark portlen payload
      else ipv6Case get_mark portlen payload
  else if protocol = ETH_P_IPV6 then ipv6Case get_mark portlen payload
  else some 0

/-- The result `r` of a mark function is the mark `fwOffset + k` (as `uint32_t`) of a
backend `k < N` that is active in the state `sh`. -/
def ActiveMark (sh : SharedData) (r : Option Nat) : Prop :=
  ∃ k, k < sh.magd.N ∧ sh.magd.active k ≠ 0 ∧ r = some (toU32 (sh.fwOffset + (k : Int)))

/-- DJB2 as the specification words it: start at 5381 and fold
`h <- (h * 33 + b) mod 2^32` over the key bytes in order. -/
def DJB2 (key : List Nat) : Nat := key.foldl (fun h b => (h * 33 + b) % 2 ^ 32) 5381

/-- The bytes `payload[a .. b)`. -/
def slice (payload : Nat → Nat) (a b : Nat) : List Nat :=
  (List.range (b - a)).map (fun j => byteAt payload (a + j))

/-- A receive buffer holding the listed bytes, zero afterwards. -/
def bufferOf (bytes : List Nat) : Nat → Nat := fun j => bytes.getD j 0

/-- A shared region holding the table of the paper example, with `fwOffset = 1`. -/
def exampleShared : SharedData where
  ownFwmark := -1
  fwOffset := 1
  magd := { initExample with lookup := fun c => [1, 0, 1, 0, 2, 2, 0].getD c 0 }
  modulo := { nActive := 3, lookup := fun k => [0, 1, 2].getD k 0 }

/-- An IPv4 packet 10.0.0.1 -> 10.0.0.2 with header-length field `ihl`, the DF flag set,
protocol field `proto`, followed by the ports 12345 and 80. -/
def examplePacket (ihl proto : Nat) : Nat → Nat :=
  bufferOf [0x40 + ihl, 0, 0, 40, 0, 0, 0x40, 0, 64, proto, 0, 0,
    10, 0, 0, 1, 10, 0, 0, 2, 0x30, 0x39, 0, 80]

end Lb

namespace Maglev

/-! ## Counting buckets -/

theorem countP_range_succ (p : Nat → Bool) (m : Nat) :
    (List.range (m + 1)).countP p = (List.range m).countP p + (if p m then 1 else 0) := by
  rw [List.range_succ, List.countP_append]
  by_cases h : p m <;> simp [h]

theorem countP_range_congr (p q : Nat → Bool) (m : Nat) (h : ∀ x, x < m → q x = p x) :
    (List.range m).countP q = (List.range m).countP p := by
  induction m with
  | zero => simp
  | succ m ih =>
    rw [countP_range_succ, countP_range_succ, ih (fun x hx => h x (Nat.lt_succ_of_lt hx)),
      h m (Nat.lt_succ_self m)]

theorem countP_range_set (p q : Nat → Bool) (m c : Nat) (hc : c < m) (hp : p c = false)
    (hq : q c = true) (hne : ∀ x, x ≠ c → q x = p x) :
    (List.range m).countP q = (List.range m).countP p + 1 := by
  induction m with
  | zero => omega
  | succ m ih =>
    rw [countP_range_succ, countP_range_succ]
    by_cases hcm : c = m
    · subst hcm
      rw [countP_range_congr p q c (fun x hx => hne x (by omega)), hp, hq]
      simp
    · rw [ih (by omega), hne m (fun h => hcm h.symm)]
      omega

theorem countP_range_lt_exists (p : Nat → Bool) (m : Nat) (h : (List.range m).countP p < m) :
    ∃ c, c < m ∧ p c = false := by
  by_contra hcon
  have hall : ∀ a ∈ List.range m, p a = true := by
    intro a ha
    have ham : a < m := List.mem_range.mp ha
    by_contra hpa
    exact hcon ⟨a, ham, by simpa using hpa⟩
  have := (List.countP_eq_length (p := p) (l := List.range m)).mpr hall
  simp at this
  omega

theorem countP_range_eq_all (p : Nat → Bool) (m : Nat) (h : (List.range m).countP p = m) :
    ∀ c, c < m → p c = true := by
  intro c hc
  have h1 : (List.range m).countP p = (List.range m).length := by simpa using h
  exact (List.countP_eq_length (p := p) (l := List.range m)).mp h1 c (List.mem_range.mpr hc)

theorem countP_range_zero (p : Nat → Bool) (m : Nat) (h : ∀ c, c < m → p c = false) :
    (List.range m).countP p = 0 := by
  rw [List.countP_eq_zero]
  intro a ha
  simp [h a (List.mem_range.mp ha)]

/-! ## Consequences of the permutation invariant -/

theorem perm_lt (d : MagData) (hp : PermInvariant d) (i j : Nat) (hi : i < d.N)
    (hj : j < d.M) : d.permutation i j < d.M := by
  have hmem : d.permutation i j ∈ permRow d i :=
    List.mem_map.mpr ⟨j, List.mem_range.mpr hj, rfl⟩
  exact List.mem_range.mp ((hp i hi).mem_iff.mp hmem)

theorem perm_surj (d : MagData) (hp : PermInvariant d) (i c : Nat) (hi : i < d.N)
    (hc : c < d.M) : ∃ j, j < d.M ∧ d.permutation i j = c := by
  have hmem : c ∈ permRow d i := (hp i hi).mem_iff.mpr (List.mem_range.mpr hc)
  obtain ⟨j, hj, hjc⟩ := List.mem_map.mp hmem
  exact ⟨j, List.mem_range.mp hj, hjc⟩

theorem countActive_eq_zero (active : Nat → Nat) (k : Nat) :
    countActive active k = 0 ↔ ∀ i, i < k → active i = 0 := by
  induction k with
  | zero => simp [countActive]
  | succ k ih =>
    unfold countActive
    by_cases h : active k = 0
    · simp only [h, ne_eq, not_true_eq_false, if_false, ih]
      constructor
      · intro hall i hi
        rcases Nat.lt_succ_iff_lt_or_eq.mp hi with h1 | h1
        · exact hall i h1
        · rw [h1]; exact h
      · intro hall i hi
        exact hall i (Nat.lt_succ_of_lt hi)
    · simp only [ne_eq, h, not_false_eq_true, if_true]
      constructor
      · intro h0; omega
      · intro hall; exact absurd (hall k (Nat.lt_succ_self k)) h

/-! ## The loop invariant of `populate` is preserved -/

theorem skipTaken_spec (d : MagData) (lookup : Nat → Int) (i : Nat) (hM : d.M ≤ MAX_M)
    (hlt : ∀ j, j < d.M → d.permutation i j < d.M) :
    ∀ fuel nx j0, nx ≤ j0 → j0 < nx + fuel → j0 < d.M → lookup (d.permutation i j0) < 0 →
      ∃ r, skipTaken d lookup i fuel nx = some r ∧ nx ≤ r ∧ r ≤ j0 ∧
        lookup (d.permutation i r) < 0 ∧
        ∀ j, nx ≤ j → j < r → 0 ≤ lookup (d.permutation i j) := by
  intro fuel
  induction fuel with
  | zero => intro nx j0 h1 h2; omega
  | succ fuel ih =>
    intro nx j0 h1 h2 h3 h4
    have hnx : nx < MAX_M := by omega
    have hc : d.permutation i nx < MAX_M := lt_of_lt_of_le (hlt nx (by omega)) hM
    unfold skipTaken
    simp only [hnx, hc, if_true]
    by_cases hfree : 0 ≤ lookup (d.permutation i nx)
    · simp only [hfree, if_true]
      have hne : nx ≠ j0 := by
        intro h; rw [h] at hfree; omega
      obtain ⟨r, hr, hr1, hr2, hr3, hr4⟩ := ih (nx + 1) j0 (by omega) (by omega) h3 h4
      refine ⟨r, hr, by omega, hr2, hr3, ?_⟩
      intro j hj1 hj2
      by_cases hjn : j = nx
      · rw [hjn]; exact hfree
      · exact hr4 j (by omega) hj2
    · simp only [hfree, if_false]
      exact ⟨nx, rfl, le_refl _, h1, by omega, fun j hj1 hj2 => by omega⟩

theorem setAt_same {α : Type} (f : Nat → α) (c : Nat) (v : α) : setAt f c v c = v := by
  simp [setAt]

theorem setAt_other {α : Type} (f : Nat → α) (c x : Nat) (v : α) (h : x ≠ c) :
    setAt f c v x = f x := by
  simp [setAt, h]

theorem setAt_nonneg (f : Nat → Int) (c i x : Nat) (h : 0 ≤ f x) :
    0 ≤ setAt f c (i : Int) x := by
  unfold setAt
  by_cases hx : x = c
  · simp [hx]
  · simp [hx, h]

theorem turn_spec (d : MagData) (s : PopState) (i r : Nat) (hM : d.M ≤ MAX_M)
    (hp : PermInvariant d) (hi : i < d.N) (hact : d.active i ≠ 0) (hinv : PopInv d s i r)
    (hn : s.n < d.M) :
    ∃ nx, skipTaken d s.lookup i MAX_M (s.next i) = some nx ∧ nx < d.M ∧
      PopInv d (assign d s i nx) (i + 1) r := by
  have hfree : ∃ c0, c0 < d.M ∧ decide (0 ≤ s.lookup c0) = false :=
    countP_range_lt_exists _ d.M (by rw [← hinv.filled]; exact hn)
  obtain ⟨c0, hc0, hc0free⟩ := hfree
  have hc0neg : s.lookup c0 < 0 := by simpa using hc0free
  obtain ⟨j0, hj0, hj0c⟩ := perm_surj d hp i c0 hi hc0
  have hge : s.next i ≤ j0 := by
    by_contra hlt
    have := hinv.passed i hi j0 (by omega)
    rw [hj0c] at this
    omega
  obtain ⟨nx, hnx, hnx1, hnx2, hnx3, hnx4⟩ :=
    skipTaken_spec d s.lookup i hM (fun j hj => perm_lt d hp i j hi hj) MAX_M (s.next i) j0
      hge (by omega) hj0 (by rw [hj0c]; exact hc0neg)
  have hnxM : nx < d.M := by omega
  have hcM : d.permutation i nx < d.M := perm_lt d hp i nx hi hnxM
  have hcfree : s.lookup (d.permutation i nx) = -1 := by
    rcases hinv.range _ hcM with h | ⟨a, _, _, h⟩
    · exact h
    · rw [h] at hnx3; omega
  refine ⟨nx, hnx, hnxM, ?_, ?_, ?_, ?_⟩
  · intro c hc
    by_cases hcc : c = d.permutation i nx
    · right
      exact ⟨i, hi, hact, by simp [assign, setAt, hcc]⟩
    · simpa [assign, setAt, hcc] using hinv.range c hc
  · intro a ha j hj
    show 0 ≤ setAt s.lookup (d.permutation i nx) (i : Int) (d.permutation a j)
    by_cases hai : a = i
    · subst hai
      have hj1 : j < nx + 1 := by simpa [assign, setAt] using hj
      by_cases hjold : j < s.next a
      · exact setAt_nonneg _ _ _ _ (hinv.passed a ha j hjold)
      · by_cases hjnx : j = nx
        · rw [hjnx, setAt_same]; omega
        · exact setAt_nonneg _ _ _ _ (hnx4 j (by omega) (by omega))
    · have hj1 : j < s.next a := by simpa [assign, setAt, hai] using hj
      exact setAt_nonneg _ _ _ _ (hinv.passed a ha j hj1)
  · show s.n + 1 = _
    rw [hinv.filled]
    symm
    apply countP_range_set _ _ d.M (d.permutation i nx) hcM
    · simp [hcfree]
    · simp [assign, setAt]
    · intro x hx
      simp [assign, setAt, hx]
  · intro a ha haact
    by_cases hai : a = i
    · subst hai
      have hold := hinv.share a ha haact
      simp only [lt_irrefl, if_false] at hold
      simp only [Nat.lt_succ_self, if_true]
      rw [← hold]
      apply countP_range_set _ _ d.M (d.permutation a nx) hcM
      · simp [hcfree]
      · simp [assign, setAt]
      · intro x hx
        simp [assign, setAt, hx]
    · have hold := hinv.share a ha haact
      have hlt : (if a < i + 1 then r + 1 else r) = (if a < i then r + 1 else r) := by
        by_cases h : a < i
        · rw [if_pos h, if_pos (by omega)]
        · rw [if_neg h, if_neg (by omega)]
      rw [hlt, ← hold]
      apply countP_range_congr
      intro x hx
      by_cases hxc : x = d.permutation i nx
      · have h1 : ((i : Int) = (a : Int)) = False := by
          apply propext; constructor
          · intro h; exact hai (by exact_mod_cast h.symm)
          · intro h; exact h.elim
        have h2 : (s.lookup (d.permutation i nx) = (a : Int)) = False := by
          apply propext; constructor
          · intro h; rw [hcfree] at h; omega
          · intro h; exact h.elim
        simp [assign, setAt, hxc, h1, h2]
      · simp [assign, setAt, hxc]

theorem popInv_skip (d : MagData) (s : PopState) (i r : Nat) (hinv : PopInv d s i r)
    (h0 : d.active i = 0) : PopInv d s (i + 1) r := by
  refine ⟨hinv.range, hinv.passed, hinv.filled, ?_⟩
  intro a ha haact
  have hai : a ≠ i := fun h => haact (h ▸ h0)
  rw [hinv.share a ha haact]
  by_cases h : a < i
  · rw [if_pos h, if_pos (by omega)]
  · rw [if_neg h, if_neg (by omega)]

theorem innerFor_spec (d : MagData) (r : Nat) (hM : d.M ≤ MAX_M) (hp : PermInvariant d) :
    ∀ k i s, i + k = d.N → PopInv d s i r → s.n < d.M →
      ∃ b s1, innerFor d k i s = some (b, s1) ∧ s.n ≤ s1.n ∧
        ((∃ a, i ≤ a ∧ a < d.N ∧ d.active a ≠ 0) → s.n < s1.n) ∧
        (b = true → s1.n = d.M ∧ ∃ i1, PopInv d s1 i1 r) ∧
        (b = false → s1.n < d.M ∧ PopInv d s1 d.N r) := by
  intro k
  induction k with
  | zero =>
    intro i s hik hinv hn
    have hiN : i = d.N := by omega
    subst hiN
    refine ⟨false, s, rfl, le_refl _, ?_, ?_, ?_⟩
    · rintro ⟨a, h1, h2, _⟩; omega
    · intro h; cases h
    · intro _; exact ⟨hn, hinv⟩
  | succ k ih =>
    intro i s hik hinv hn
    have hi : i < d.N := by omega
    by_cases h0 : d.active i = 0
    · obtain ⟨b, s1, h1, h2, h3, h4, h5⟩ :=
        ih (i + 1) s (by omega) (popInv_skip d s i r hinv h0) hn
      refine ⟨b, s1, ?_, h2, ?_, h4, h5⟩
      · unfold innerFor
        simp only [h0, if_true]
        exact h1
      · rintro ⟨a, ha1, ha2, ha3⟩
        have hai : a ≠ i := fun h => ha3 (h ▸ h0)
        exact h3 ⟨a, by omega, ha2, ha3⟩
    · obtain ⟨nx, hnx, _, hinv1⟩ := turn_spec d s i r hM hp hi h0 hinv hn
      have hn1 : (assign d s i nx).n = s.n + 1 := rfl
      by_cases hdone : (assign d s i nx).n = d.M
      · refine ⟨true, assign d s i nx, ?_, by omega, fun _ => by omega, ?_, ?_⟩
        · unfold innerFor
          simp only [h0, if_false, hnx, hdone, if_true]
        · intro _; exact ⟨hdone, i + 1, hinv1⟩
        · intro h; cases h
      · obtain ⟨b, s1, h1, h2, _, h4, h5⟩ :=
          ih (i + 1) (assign d s i nx) (by omega) hinv1 (by omega)
        refine ⟨b, s1, ?_, by omega, fun _ => by omega, h4, h5⟩
        unfold innerFor
        simp only [h0, if_false, hnx, hdone]
        exact h1

theorem outerLoop_spec (d : MagData) (hM : d.M ≤ MAX_M) (hp : PermInvariant d)
    (hA : ∃ a, a < d.N ∧ d.active a ≠ 0) :
    ∀ fuel s r, PopInv d s 0 r → s.n < d.M → d.M ≤ s.n + fuel →
      ∃ s1, outerLoop d fuel s = some s1 ∧ s1.n = d.M ∧ ∃ i1 r1, PopInv d s1 i1 r1 := by
  intro fuel
  induction fuel with
  | zero => intro s r _ h1 h2; omega
  | succ fuel ih =>
    intro s r hinv hn hfuel
    obtain ⟨b, s1, h1, _, h3, h4, h5⟩ := innerFor_spec d r hM hp d.N 0 s (by omega) hinv hn
    obtain ⟨a, ha1, ha2⟩ := hA
    have hprog : s.n < s1.n := h3 ⟨a, Nat.zero_le a, ha1, ha2⟩
    cases b with
    | true =>
      obtain ⟨h6, i1, h7⟩ := h4 rfl
      refine ⟨s1, ?_, h6, i1, r, h7⟩
      unfold outerLoop
      rw [h1]
    | false =>
      obtain ⟨h6, h7⟩ := h5 rfl
      have hinv0 : PopInv d s1 0 (r + 1) := by
        refine ⟨h7.range, h7.passed, h7.filled, ?_⟩
        intro a1 ha1 ha1act
        rw [h7.share a1 ha1 ha1act, if_pos ha1, if_neg (Nat.not_lt_zero a1)]
      obtain ⟨s2, h8, h9, h10⟩ := ih s1 (r + 1) hinv0 h6 (by omega)
      refine ⟨s2, ?_, h9, h10⟩
      unfold outerLoop
      rw [h1]
      exact h8

theorem populate_spec (d : MagData) (hM : d.M ≤ MAX_M) (hN : d.N ≤ MAX_N)
    (hp : PermInvariant d) (hM1 : 1 ≤ d.M) (hA : ∃ a, a < d.N ∧ d.active a ≠ 0) :
    ∃ s1 i1 r1, populate d = some { d with lookup := s1.lookup } ∧ s1.n = d.M ∧
      PopInv d s1 i1 r1 := by
  have hcnt : countActive d.active d.N ≠ 0 := by
    intro h
    obtain ⟨a, ha1, ha2⟩ := hA
    exact ha2 ((countActive_eq_zero d.active d.N).mp h a ha1)
  have hinit : PopInv d
      { lookup := fun c => if c < d.M then -1 else d.lookup c, next := fun _ => 0, n := 0 }
      0 0 := by
    refine ⟨?_, ?_, ?_, ?_⟩
    · intro c hc; left; simp [hc]
    · intro a _ j hj; exact absurd hj (Nat.not_lt_zero j)
    · symm
      apply countP_range_zero
      intro c hc
      simp [hc]
    · intro a _ _
      rw [if_neg (Nat.not_lt_zero a)]
      apply countP_range_zero
      intro c hc
      simp [hc]
  obtain ⟨s1, h1, h2, i1, r1, h3⟩ :=
    outerLoop_spec d hM hp hA d.M _ 0 hinit (by simpa using hM1) (by simp)
  refine ⟨s1, i1, r1, ?_, h2, h3⟩
  unfold populate
  simp only [hM, hN, and_self, if_true, hcnt, if_false, h1, Option.map_some']

theorem populate_inactive (d : MagData) (hM : d.M ≤ MAX_M) (hN : d.N ≤ MAX_N)
    (h0 : ∀ i, i < d.N → d.active i = 0) :
    populate d = some { d with lookup := fun c => if c < d.M then -1 else d.lookup c } := by
  unfold populate
  simp only [hM, hN, and_self, if_true, (countActive_eq_zero d.active d.N).mpr h0]

theorem initExample_perm : PermInvariant initExample := by
  intro i hi
  have hi3 : i < 3 := hi
  interval_cases i <;> decide

theorem populate_lookup_spec (d : MagData) (hM1 : 1 ≤ d.M) (hM : d.M ≤ MAX_M)
    (hN : d.N ≤ MAX_N) (hp : PermInvariant d) :
    ∃ d1, populate d = some d1 ∧
      ((∃ a, a < d.N ∧ d.active a ≠ 0) →
        ∀ c, c < d.M →
          (∃ i, i < d.N ∧ d.active i ≠ 0 ∧ d1.lookup c = (i : Int)) ∧ d1.lookup c ≠ -1) ∧
      ((∀ a, a < d.N → d.active a = 0) → ∀ c, c < d.M → d1.lookup c = -1) := by
  by_cases hA : ∃ a, a < d.N ∧ d.active a ≠ 0
  · obtain ⟨s1, i1, r1, h1, h2, h3⟩ := populate_spec d hM hN hp hM1 hA
    refine ⟨_, h1, ?_, ?_⟩
    · intro _ c hc
      have hfull := countP_range_eq_all _ d.M (h3.filled.symm.trans h2) c hc
      have hnonneg : 0 ≤ s1.lookup c := by simpa using hfull
      rcases h3.range c hc with h | ⟨a, ha1, ha2, ha3⟩
      · rw [h] at hnonneg; omega
      · refine ⟨⟨a, ha1, ha2, ha3⟩, ?_⟩
        show s1.lookup c ≠ -1
        omega
    · intro h0
      obtain ⟨a, ha1, ha2⟩ := hA
      exact absurd (h0 a ha1) ha2
  · have h0 : ∀ a, a < d.N → d.active a = 0 := by
      intro a ha
      by_contra hne
      exact hA ⟨a, ha, hne⟩
    refine ⟨_, populate_inactive d hM hN h0, fun h => absurd h hA, ?_⟩
    intro _ c hc
    simp [hc]

theorem populate_frame (d d1 : MagData) (h : populate d = some d1) :
    d1.M = d.M ∧ d1.N = d.N ∧ d1.permutation = d.permutation ∧ d1.active = d.active := by
  unfold populate at h
  split at h
  · split at h
    · cases h; exact ⟨rfl, rfl, rfl, rfl⟩
    · dsimp only at h
      cases hout : outerLoop d d.M
          { lookup := fun c => if c < d.M then -1 else d.lookup c, next := fun _ => 0, n := 0 } with
      | none => rw [hout] at h; cases h
      | some s1 => rw [hout] at h; cases h; exact ⟨rfl, rfl, rfl, rfl⟩
  · cases h

theorem permInvariant_congr (d d1 : MagData) (hM : d1.M = d.M)
    (hperm : d1.permutation = d.permutation) (hN : d1.N = d.N) (hp : PermInvariant d) :
    PermInvariant d1 := by
  intro i hi
  have := hp i (hN ▸ hi)
  unfold permRow at *
  rw [hM, hperm]
  exact this

/-! ## Claims on `populate` -/

/-- C1: for a table with `1 ≤ M ≤ MAX_M`, `N ≤ MAX_N` and permutation rows that are
permutations of `{0..M-1}`, `populate` returns; if some backend `i < N` is active, every
`lookup[c]`, `c < M`, is the index of an active backend `i < N` (so it is not `-1`); if no
backend is active, every `lookup[c]`, `c < M`, is `-1`. -/
theorem populate_names_active (d : MagData) (hM1 : 1 ≤ d.M) (hM : d.M ≤ MAX_M)
    (hN : d.N ≤ MAX_N) (hp : PermInvariant d) :
    ∃ d1, populate d = some d1 ∧
      ((∃ a, a < d.N ∧ d.active a ≠ 0) →
        ∀ c, c < d.M →
          (∃ i, i < d.N ∧ d.active i ≠ 0 ∧ d1.lookup c = (i : Int)) ∧ d1.lookup c ≠ -1) ∧
      ((∀ a, a < d.N → d.active a = 0) → ∀ c, c < d.M → d1.lookup c = -1) :=
  populate_lookup_spec d hM1 hM hN hp

/-- Witness of C1 at the example of the Maglev paper (`M = 7`, `N = 3`, all active). -/
theorem populate_names_active_witness :
    (1 ≤ initExample.M ∧ initExample.M ≤ MAX_M ∧ initExample.N ≤ MAX_N ∧
      PermInvariant initExample) ∧
    ∃ d1, populate initExample = some d1 ∧
      ((∃ a, a < initExample.N ∧ initExample.active a ≠ 0) →
        ∀ c, c < initExample.M →
          (∃ i, i < initExample.N ∧ initExample.active i ≠ 0 ∧ d1.lookup c = (i : Int)) ∧
            d1.lookup c ≠ -1) ∧
      ((∀ a, a < initExample.N → initExample.active a = 0) →
        ∀ c, c < initExample.M → d1.lookup c = -1) :=
  ⟨⟨by decide, by decide, by decide, initExample_perm⟩,
    populate_names_active initExample (by decide) (by decide) (by decide) initExample_perm⟩

/-- C2: for a table satisfying the permutation invariant (and the bounds
`1 ≤ M ≤ MAX_M`, `N ≤ MAX_N`) with at least one active backend, `populate` returns and for
every pair of active backends `i`, `j` the numbers of buckets `c < M` with `lookup[c] = i`
and with `lookup[c] = j` differ by at most 1. -/
theorem populate_balanced (d : MagData) (hM1 : 1 ≤ d.M) (hM : d.M ≤ MAX_M)
    (hN : d.N ≤ MAX_N) (hp : PermInvariant d) (hA : ∃ a, a < d.N ∧ d.active a ≠ 0) :
    ∃ d1, populate d = some d1 ∧
      ∀ i j, i < d.N → j < d.N → d.active i ≠ 0 → d.active j ≠ 0 →
        bucketCount d1 i ≤ bucketCount d1 j + 1 ∧ bucketCount d1 j ≤ bucketCount d1 i + 1 := by
  obtain ⟨s1, i1, r1, h1, _, h3⟩ := populate_spec d hM hN hp hM1 hA
  refine ⟨_, h1, ?_⟩
  intro i j hi hj hai haj
  have hci : bucketCount { d with lookup := s1.lookup } i = if i < i1 then r1 + 1 else r1 :=
    h3.share i hi hai
  have hcj : bucketCount { d with lookup := s1.lookup } j = if j < i1 then r1 + 1 else r1 :=
    h3.share j hj haj
  rw [hci, hcj]
  split <;> split <;> omega

/-- Witness of C2 at the example of the Maglev paper. -/
theorem populate_balanced_witness :
    (∃ a, a < initExample.N ∧ initExample.active a ≠ 0) ∧
    ∃ d1, populate initExample = some d1 ∧
      ∀ i j, i < initExample.N → j < initExample.N →
        initExample.active i ≠ 0 → initExample.active j ≠ 0 →
        bucketCount d1 i ≤ bucketCount d1 j + 1 ∧ bucketCount d1 j ≤ bucketCount d1 i + 1 :=
  ⟨⟨0, by decide, by decide⟩,
    populate_balanced initExample (by decide) (by decide) (by decide) initExample_perm
      ⟨0, by decide, by decide⟩⟩

/-- C3, counterexample: in the example of the Maglev paper, bucket 6 holds backend 0 after
`populate`; after `active[1] = 0` and a second `populate` it holds backend 2, although it did
not hold the deactivated backend 1. -/
theorem stability_counterexample :
    PermInvariant initExample ∧ initExample.active 1 ≠ 0 ∧
    (populate initExample).map (fun L => L.lookup 6) = some 0 ∧
    ((populate initExample).bind (fun L => populate (setActive L 1 0))).map
      (fun L1 => L1.lookup 6) = some 2 :=
  ⟨initExample_perm, by decide, by decide, by decide⟩

/-- C3, amended: for a table satisfying the permutation invariant (and the bounds
`1 ≤ M ≤ MAX_M`, `N ≤ MAX_N`) and a backend `k`, both runs of `populate` return;
after `active[k] = 0` no bucket holds `k`, every bucket is `-1` or names a backend that is
still active, and so every bucket that held `k` has changed. -/
theorem populate_deactivate (d : MagData) (k : Nat) (hM1 : 1 ≤ d.M) (hM : d.M ≤ MAX_M)
    (hN : d.N ≤ MAX_N) (hp : PermInvariant d) :
    ∃ L L1, populate d = some L ∧ populate (setActive L k 0) = some L1 ∧
      ∀ c, c < d.M →
        L1.lookup c ≠ (k : Int) ∧
        (L1.lookup c = -1 ∨
          ∃ i, i < d.N ∧ i ≠ k ∧ d.active i ≠ 0 ∧ L1.lookup c = (i : Int)) ∧
        (L.lookup c = (k : Int) → L1.lookup c ≠ L.lookup c) := by
  obtain ⟨L, hL, _, _⟩ := populate_lookup_spec d hM1 hM hN hp
  obtain ⟨fM, fN, fperm, fact⟩ := populate_frame d L hL
  have hp2 : PermInvariant (setActive L k 0) :=
    permInvariant_congr d (setActive L k 0) fM fperm fN hp
  have hM2 : (setActive L k 0).M = d.M := fM
  have hN2 : (setActive L k 0).N = d.N := fN
  have hact2 : ∀ i, (setActive L k 0).active i = if i = k then 0 else d.active i := by
    intro i
    show setAt L.active k 0 i = _
    rw [fact]; rfl
  obtain ⟨L1, hL1, hsome, hnone⟩ := populate_lookup_spec (setActive L k 0)
    (by rw [hM2]; exact hM1) (by rw [hM2]; exact hM) (by rw [hN2]; exact hN) hp2
  refine ⟨L, L1, hL, hL1, ?_⟩
  intro c hc
  have key : L1.lookup c = -1 ∨
      ∃ i, i < d.N ∧ i ≠ k ∧ d.active i ≠ 0 ∧ L1.lookup c = (i : Int) := by
    by_cases hA : ∃ a, a < (setActive L k 0).N ∧ (setActive L k 0).active a ≠ 0
    · obtain ⟨⟨i, hi1, hi2, hi3⟩, _⟩ := hsome hA c (by rw [hM2]; exact hc)
      right
      rw [hact2] at hi2
      by_cases hik : i = k
      · simp [hik] at hi2
      · rw [if_neg hik] at hi2
        exact ⟨i, by rw [← hN2]; exact hi1, hik, hi2, hi3⟩
    · left
      apply hnone _ c (by rw [hM2]; exact hc)
      intro a ha
      by_contra hne
      exact hA ⟨a, ha, hne⟩
  have hnek : L1.lookup c ≠ (k : Int) := by
    rcases key with h | ⟨i, _, hik, _, h⟩
    · rw [h]; omega
    · rw [h]; intro heq; exact hik (by exact_mod_cast heq)
  exact ⟨hnek, key, fun hLk => by rw [hLk]; exact hnek⟩

/-- Witness of the amended C3 at the example of the Maglev paper with `k = 1`. -/
theorem populate_deactivate_witness :
    (1 ≤ initExample.M ∧ initExample.M ≤ MAX_M ∧ initExample.N ≤ MAX_N ∧
      PermInvariant initExample) ∧
    ∃ L L1, populate initExample = some L ∧ populate (setActive L 1 0) = some L1 ∧
      ∀ c, c < initExample.M →
        L1.lookup c ≠ ((1 : Nat) : Int) ∧
        (L1.lookup c = -1 ∨
          ∃ i, i < initExample.N ∧ i ≠ 1 ∧ initExample.active i ≠ 0 ∧
            L1.lookup c = (i : Int)) ∧
        (L.lookup c = ((1 : Nat) : Int) → L1.lookup c ≠ L.lookup c) :=
  ⟨⟨by decide, by decide, by decide, initExample_perm⟩,
    populate_deactivate initExample 1 (by decide) (by decide) (by decide) initExample_perm⟩

/-- C4: on the example of the Maglev paper (`M = 7`, `N = 3`, `(offset, skip)` =
`(3,4), (0,2), (3,1)`, all backends active) `populate` produces
`lookup[0..7) = [1, 0, 1, 0, 2, 2, 0]`. -/
theorem populate_paper_example :
    (populate initExample).map lookupList = some [1, 0, 1, 0, 2, 2, 0] := by
  decide

/-- C5, counterexample: after `active[1] = 0` and a second `populate` the table of the paper
example is not `[2, 0, 2, 0, 2, 2, 0]`. -/
theorem deactivation_scenario_counterexample :
    ((populate initExample).bind (fun L => populate (setActive L 1 0))).map lookupList
      ≠ some [2, 0, 2, 0, 2, 2, 0] := by
  decide

/-- C5, amended: starting from the paper example, after `active[1] = 0` and a second
`populate`, `lookup[0..7) = [0, 0, 0, 0, 2, 2, 2]`: the buckets 0 and 2 that held backend 1
now hold 0, bucket 6 moved from backend 0 to backend 2, buckets 1, 3, 4, 5 are unchanged. -/
theorem deactivation_scenario :
    ((populate initExample).bind (fun L => populate (setActive L 1 0))).map lookupList
      = some [0, 0, 0, 0, 2, 2, 2] := by
  decide

/-! ## The rows written by `initMagData` -/

theorem initRow_eq (M offset skip j : Nat) (hM : M ≤ MAX_M) (ho : offset < M)
    (hs : skip < M) (hj : j < M) : initRow M offset skip j = (offset + j * skip) % M := by
  have hM4 : M ≤ 10000 := hM
  have hprod : j * skip ≤ 10000 * 10000 := Nat.mul_le_mul (by omega) (by omega)
  unfold initRow
  rw [if_pos hj, Nat.mod_eq_of_lt (a := j * skip) (by omega),
    Nat.mod_eq_of_lt (a := offset + j * skip) (by omega)]

theorem affine_inj (M offset skip j1 j2 : Nat) (hprime : Nat.Prime M) (hs1 : 1 ≤ skip)
    (hs : skip < M) (hj1 : j1 < M) (hle : j2 ≤ j1)
    (h : (offset + j1 * skip) % M = (offset + j2 * skip) % M) : j1 = j2 := by
  have hmod : j2 * skip ≡ j1 * skip [MOD M] := Nat.ModEq.add_left_cancel' offset h.symm
  have hdvd : M ∣ j1 * skip - j2 * skip :=
    (Nat.modEq_iff_dvd' (Nat.mul_le_mul_right skip hle)).mp hmod
  rw [← Nat.sub_mul] at hdvd
  rcases (Nat.Prime.dvd_mul hprime).mp hdvd with h1 | h1
  · by_contra hne
    have := Nat.le_of_dvd (by omega) h1
    omega
  · have := Nat.le_of_dvd (by omega) h1
    omega

theorem affine_perm (M offset skip : Nat) (hprime : Nat.Prime M) (hs1 : 1 ≤ skip)
    (hs : skip < M) :
    List.Perm ((List.range M).map (fun j => (offset + j * skip) % M)) (List.range M) := by
  have hMpos : 0 < M := hprime.pos
  have hnodup : ((List.range M).map (fun j => (offset + j * skip) % M)).Nodup := by
    apply List.Nodup.map_on _ (List.nodup_range M)
    intro x hx y hy hxy
    have hx1 := List.mem_range.mp hx
    have hy1 := List.mem_range.mp hy
    rcases Nat.le_total y x with hle | hle
    · exact affine_inj M offset skip x y hprime hs1 hs hx1 hle hxy
    · exact (affine_inj M offset skip y x hprime hs1 hs hy1 hle hxy.symm).symm
  apply List.perm_of_nodup_nodup_toFinset_eq hnodup (List.nodup_range M)
  apply Finset.eq_of_subset_of_card_le
  · intro v hv
    rw [List.mem_toFinset, List.mem_map] at hv
    obtain ⟨j, _, hjv⟩ := hv
    rw [List.mem_toFinset, List.mem_range, ← hjv]
    exact Nat.mod_lt _ hMpos
  · rw [List.toFinset_card_of_nodup hnodup, List.toFinset_card_of_nodup (List.nodup_range M)]
    simp

theorem initRow_perm (M offset skip : Nat) (hprime : Nat.Prime M) (hM : M ≤ MAX_M)
    (ho : offset < M) (hs1 : 1 ≤ skip) (hs : skip < M) :
    List.Perm ((List.range M).map (initRow M offset skip)) (List.range M) := by
  have hmap : (List.range M).map (initRow M offset skip)
      = (List.range M).map (fun j => (offset + j * skip) % M) := by
    apply List.map_congr_left
    intro j hj
    exact initRow_eq M offset skip j hM ho hs (List.mem_range.mp hj)
  rw [hmap]
  exact affine_perm M offset skip hprime hs1 hs

/-- C6: for a prime `M ≤ MAX_M` (in particular `19 ≤ M ≤ MAX_M`), `offset < M` and
`1 ≤ skip < M`, the row
written by `initMagData` in 32-bit unsigned arithmetic equals the mathematical sequence
`(offset + j * skip) mod M`, `j < M` (no wraparound), and contains every value of
`{0..M-1}` exactly once. -/
theorem initRow_permutation (M offset skip : Nat) (hprime : Nat.Prime M)
    (hM : M ≤ MAX_M) (ho : offset < M) (hs1 : 1 ≤ skip) (hs : skip < M) :
    (∀ j, j < M → initRow M offset skip j = (offset + j * skip) % M) ∧
    List.Perm ((List.range M).map (initRow M offset skip)) (List.range M) ∧
    ((List.range M).map (initRow M offset skip)).length = M ∧
    ∀ v, v < M → ((List.range M).map (initRow M offset skip)).count v = 1 := by
  have hperm := initRow_perm M offset skip hprime hM ho hs1 hs
  refine ⟨fun j hj => initRow_eq M offset skip j hM ho hs hj, hperm, by simp, ?_⟩
  intro v hv
  rw [hperm.count_eq]
  exact List.count_eq_one_of_mem (List.nodup_range M) (List.mem_range.mpr hv)

/-- Witness of C6 at `M = 19`, `offset = 3`, `skip = 4`. -/
theorem initRow_permutation_witness :
    (Nat.Prime 19 ∧ 19 ≤ MAX_M ∧ 3 < 19 ∧ 1 ≤ 4 ∧ 4 < 19) ∧
    (∀ j, j < 19 → initRow 19 3 4 j = (3 + j * 4) % 19) ∧
    List.Perm ((List.range 19).map (initRow 19 3 4)) (List.range 19) ∧
    ((List.range 19).map (initRow 19 3 4)).length = 19 ∧
    ∀ v, v < 19 → ((List.range 19).map (initRow 19 3 4)).count v = 1 :=
  ⟨⟨by norm_num, by decide, by decide, by decide, by decide⟩,
    initRow_permutation 19 3 4 (by norm_num) (by decide) (by decide) (by decide) (by decide)⟩

end Maglev

namespace Lb

open Maglev

/-! ## The modulo table -/

theorem activeList_succ (active : Nat → Nat) (n : Nat) :
    activeList active (n + 1)
      = activeList active n ++ (if active n ≠ 0 then [n] else []) := by
  unfold activeList
  rw [List.range_succ, List.filter_append]
  by_cases h : active n = 0 <;> simp [h]

theorem activeList_tail (active : Nat → Nat) (N : Nat) (h0 : ∀ j, N ≤ j → active j = 0) :
    ∀ t, activeList active (N + t) = activeList active N := by
  intro t
  induction t with
  | zero => rfl
  | succ t ih =>
    rw [← Nat.add_assoc, activeList_succ, ih, h0 (N + t) (Nat.le_add_right N t)]
    simp

theorem activeList_sorted (active : Nat → Nat) (n : Nat) :
    List.Pairwise (fun a b => a < b) (activeList active n) :=
  List.Pairwise.filter _ (List.pairwise_lt_range n)

theorem updateModuloLoop_spec (active : Nat → Nat) :
    ∀ k i m, m.nActive = (activeList active i).length →
      (List.range m.nActive).map m.lookup = (activeList active i).map (fun (a : Nat) => (a : Int)) →
      (updateModuloLoop active k i m).nActive = (activeList active (i + k)).length ∧
      (List.range (updateModuloLoop active k i m).nActive).map
          (updateModuloLoop active k i m).lookup
        = (activeList active (i + k)).map (fun (a : Nat) => (a : Int)) := by
  intro k
  induction k with
  | zero => intro i m h1 h2; exact ⟨h1, h2⟩
  | succ k ih =>
    intro i m h1 h2
    have hidx : i + (k + 1) = (i + 1) + k := by omega
    unfold updateModuloLoop
    by_cases hact : active i = 0
    · simp only [hact, ne_eq, not_true_eq_false, if_false]
      rw [hidx]
      apply ih (i + 1) m
      · rw [activeList_succ, h1]; simp [hact]
      · rw [activeList_succ, h2]; simp [hact]
    · simp only [ne_eq, hact, not_false_eq_true, if_true]
      rw [hidx]
      apply ih (i + 1)
      · show m.nActive + 1 = _
        rw [activeList_succ, h1]; simp [hact]
      · show (List.range (m.nActive + 1)).map (setAt m.lookup m.nActive (i : Int)) = _
        rw [activeList_succ, List.range_succ, List.map_append, List.map_append, ← h2]
        simp only [ne_eq, hact, not_false_eq_true, if_true, List.map_cons, List.map_nil,
          setAt_same]
        congr 1
        apply List.map_congr_left
        intro t ht
        exact setAt_other _ _ _ _ (Nat.ne_of_lt (List.mem_range.mp ht))

theorem updateModulo_consistent (sh : SharedData) (hN : sh.magd.N ≤ MAX_N)
    (h0 : ∀ j, sh.magd.N ≤ j → sh.magd.active j = 0) : ModuloConsistent (updateModulo sh) := by
  have hspec := updateModuloLoop_spec sh.magd.active MAX_N 0 { sh.modulo with nActive := 0 }
    rfl rfl
  have htail : activeList sh.magd.active (0 + MAX_N) = activeList sh.magd.active sh.magd.N := by
    have := activeList_tail sh.magd.active sh.magd.N h0 (MAX_N - sh.magd.N)
    rw [← this]
    congr 1
    omega
  rw [htail] at hspec
  exact hspec

theorem createN_ge (a : Option Int) : 4 ≤ createN a := by
  cases a with
  | none => decide
  | some z =>
    simp only [createN]
    have h100 : MAX_N = 100 := rfl
    split <;> split <;> omega

theorem setActivateLoop_tail (fwOffset : Int) (N v : Nat) :
    ∀ ids active, (∀ j, N ≤ j → active j = 0) →
      ∀ j, N ≤ j → setActivateLoop fwOffset N v ids active j = 0 := by
  intro ids
  induction ids with
  | nil => intro active h0 j hj; exact h0 j hj
  | cons id ids ih =>
    intro active h0 j hj
    unfold setActivateLoop
    by_cases hin : 0 ≤ idIndex fwOffset id ∧ (idIndex fwOffset id).toNat < N
    · simp only [hin, and_self, if_true]
      apply ih _ _ j hj
      intro j1 hj1
      rw [setAt_other _ _ _ _ (by omega)]
      exact h0 j1 hj1
    · simp only [hin, if_false]
      exact ih active h0 j hj

theorem primes100_sorted : List.Pairwise (fun a b => a < b) primes100 := by decide

set_option maxRecDepth 4000 in
theorem primes100_complete : ∀ p, p < 101 → Nat.Prime p → p ∈ primes100 := by decide

theorem isPrimeLoop_false (n p : Nat) (hp : p < n) (hdvd : n % p = 0) :
    ∀ l, List.Pairwise (fun a b => a < b) l → p ∈ l → isPrimeLoop n l = false := by
  intro l
  induction l with
  | nil => intro _ hmem; cases hmem
  | cons q qs ih =>
    intro hsorted hmem
    rw [List.pairwise_cons] at hsorted
    unfold isPrimeLoop
    have hqp : q ≤ p := by
      rcases List.mem_cons.mp hmem with h | h
      · omega
      · exact Nat.le_of_lt (hsorted.1 p h)
    rw [if_neg (by omega)]
    by_cases hq : n % q = 0
    · rw [if_pos hq]
    · rw [if_neg hq]
      rcases List.mem_cons.mp hmem with h | h
      · rw [h] at hdvd; exact absurd hdvd hq
      · exact ih hsorted.2 h

theorem isPrime_sound (n : Nat) (h2 : 2 ≤ n) (hM : n ≤ MAX_M) (h : isPrime n = true) :
    Nat.Prime n := by
  by_contra hnp
  have hM4 : n ≤ 10000 := hM
  have hmp : Nat.Prime (Nat.minFac n) := Nat.minFac_prime (by omega)
  have hsq : Nat.minFac n ^ 2 ≤ n := Nat.minFac_sq_le_self (by omega) hnp
  have hlt : Nat.minFac n < n := (Nat.not_prime_iff_minFac_lt h2).mp hnp
  have h100 : Nat.minFac n < 101 := by
    by_contra hge
    have : 101 * 101 ≤ Nat.minFac n * Nat.minFac n := Nat.mul_le_mul (by omega) (by omega)
    rw [sq] at hsq
    omega
  have hmem := primes100_complete _ h100 hmp
  have hfalse := isPrimeLoop_false n (Nat.minFac n) hlt
    (Nat.mod_eq_zero_of_dvd (Nat.minFac_dvd n)) primes100 primes100_sorted hmem
  unfold isPrime at h
  rw [hfalse] at h
  cases h

theorem primeBelowLoop_spec :
    ∀ fuel n, n % 2 = 1 → 19 ≤ n → n < 19 + 2 * fuel →
      isPrime (primeBelowLoop fuel n) = true ∧ 19 ≤ primeBelowLoop fuel n ∧
        primeBelowLoop fuel n ≤ n := by
  intro fuel
  induction fuel with
  | zero => intro n _ h1 h2; omega
  | succ fuel ih =>
    intro n hodd h19 hfuel
    unfold primeBelowLoop
    rw [if_pos (by omega)]
    by_cases hp : isPrime n = true
    · rw [if_pos hp]; exact ⟨hp, h19, le_refl n⟩
    · rw [if_neg hp]
      have hne : n ≠ 19 := by
        intro h; rw [h] at hp; exact hp (by decide)
      obtain ⟨h1, h2, h3⟩ := ih (n - 2) (by omega) (by omega) (by omega)
      exact ⟨h1, h2, by omega⟩

theorem primeBelow_spec (n : Nat) (h19 : 19 ≤ n) :
    isPrime (primeBelow n) = true ∧ 19 ≤ primeBelow n ∧ primeBelow n ≤ n := by
  unfold primeBelow
  by_cases hp : isPrime n = true
  · rw [if_pos hp]; exact ⟨hp, h19, le_refl n⟩
  · rw [if_neg hp]
    have hne : n ≠ 19 := by
      intro h; rw [h] at hp; exact hp (by decide)
    by_cases heven : n % 2 = 0
    · rw [if_pos heven]
      obtain ⟨h1, h2, h3⟩ := primeBelowLoop_spec n (n - 1) (by omega) (by omega) (by omega)
      exact ⟨h1, h2, by omega⟩
    · rw [if_neg heven]
      exact primeBelowLoop_spec n n (by omega) h19 (by omega)

theorem createM_prime (a : Option Int) :
    Nat.Prime (createM a) ∧ 19 ≤ createM a ∧ createM a ≤ MAX_M := by
  cases a with
  | none => exact ⟨by norm_num [createM], by decide, by decide⟩
  | some z =>
    simp only [createM]
    have hMAX : MAX_M = 10000 := rfl
    generalize toU32 z = m
    have hb : 19 ≤ (if (if m < 20 then 19 else m) > MAX_M then MAX_M
        else if m < 20 then 19 else m) ∧
        (if (if m < 20 then 19 else m) > MAX_M then MAX_M
        else if m < 20 then 19 else m) ≤ MAX_M := by
      split <;> split <;> omega
    obtain ⟨h1, h2, h3⟩ := primeBelow_spec _ hb.1
    exact ⟨isPrime_sound _ (by omega) (by omega) h1, h2, by omega⟩

theorem initMagData_perm (m n : Nat) (rand : Nat → Nat) (act : Nat → Nat)
    (hprime : Nat.Prime m) (hM : m ≤ MAX_M) :
    PermInvariant { initMagData m n rand with active := act } := by
  intro i hi
  have hi1 : i < n := hi
  have h2 : 2 ≤ m := hprime.two_le
  have hrow : permRow { initMagData m n rand with active := act } i
      = (List.range m).map
          (initRow m (rand (2 * i) % m) (rand (2 * i + 1) % (m - 1) + 1)) := by
    show (List.range m).map (fun j => if i < n then _ else 0) = _
    simp only [hi1, if_true]
  rw [hrow]
  have hskip : rand (2 * i + 1) % (m - 1) < m - 1 := Nat.mod_lt _ (by omega)
  exact initRow_perm m _ _ hprime hM (Nat.mod_lt _ (by omega)) (by omega) (by omega)

theorem cmdCreate_total (i fwOffset : Int) (args : List Int) (rand : Nat → Nat)
    (stack : ModuloAux) :
    ∃ sh, cmdCreate i fwOffset args rand stack = some sh ∧ StateInv sh := by
  obtain ⟨hprime, h19, hM⟩ := createM_prime args.head?
  have h4 := createN_ge args.tail.head?
  have hN : createN args.tail.head? ≤ MAX_N := by
    cases args.tail.head? with
    | none => decide
    | some z =>
      simp only [createN]
      have h100 : MAX_N = 100 := rfl
      split <;> split <;> omega
  have hp := initMagData_perm (createM args.head?) (createN args.tail.head?) rand
    (fun k => if k < 4 then 1 else 0) hprime hM
  obtain ⟨m1, hpop, _, _⟩ := populate_lookup_spec _ (by show 1 ≤ createM args.head?; omega)
    hM hN hp
  obtain ⟨fM, fN, fperm, fact⟩ := populate_frame _ _ hpop
  have hN1 : m1.N ≤ MAX_N := by rw [fN]; exact hN
  have htail : ∀ j, m1.N ≤ j → m1.active j = 0 := by
    intro j hj
    rw [fact]
    have h4' : 4 ≤ m1.N := by rw [fN]; exact h4
    show (if j < 4 then 1 else 0) = 0
    rw [if_neg (by omega)]
  refine ⟨updateModulo { ownFwmark := i, fwOffset := fwOffset, magd := m1, modulo := stack },
    ?_, ?_⟩
  · unfold cmdCreate
    dsimp only
    have hpop1 : populate { initMagData (createM args.head?) (createN args.tail.head?) rand with
        active := fun k => if k < 4 then 1
          else (initMagData (createM args.head?) (createN args.tail.head?) rand).active k }
        = some m1 := hpop
    rw [hpop1]
  · exact
      { boundM1 := by show 1 ≤ m1.M; rw [fM]; show 1 ≤ createM args.head?; omega
        boundM := by show m1.M ≤ MAX_M; rw [fM]; exact hM
        boundN := hN1
        tail := htail
        perm := permInvariant_congr _ m1 fM fperm fN hp
        modulo := updateModulo_consistent
          { ownFwmark := i, fwOffset := fwOffset, magd := m1, modulo := stack } hN1 htail }

theorem setActivate_total (v : Nat) (ids : List Int) (sh : SharedData) (hinv : StateInv sh) :
    ∃ sh1, setActivate v ids sh = some sh1 ∧ StateInv sh1 := by
  have hp : PermInvariant
      { sh.magd with active := setActivateLoop sh.fwOffset sh.magd.N v ids sh.magd.active } :=
    permInvariant_congr sh.magd _ rfl rfl rfl hinv.perm
  obtain ⟨m1, hpop, _, _⟩ := populate_lookup_spec
    { sh.magd with active := setActivateLoop sh.fwOffset sh.magd.N v ids sh.magd.active }
    hinv.boundM1 hinv.boundM hinv.boundN hp
  obtain ⟨fM, fN, fperm, fact⟩ := populate_frame _ _ hpop
  have hN : m1.N ≤ MAX_N := by rw [fN]; exact hinv.boundN
  have htail : ∀ j, m1.N ≤ j → m1.active j = 0 := by
    intro j hj
    rw [fact]
    exact setActivateLoop_tail _ _ _ _ _ hinv.tail j (by rw [fN] at hj; exact hj)
  refine ⟨updateModulo { sh with magd := m1 }, ?_, ?_⟩
  · unfold setActivate
    dsimp only
    rw [hpop]
  · exact
      { boundM1 := by show 1 ≤ m1.M; rw [fM]; exact hinv.boundM1
        boundM := by show m1.M ≤ MAX_M; rw [fM]; exact hinv.boundM
        boundN := hN
        tail := htail
        perm := permInvariant_congr _ m1 fM fperm fN hp
        modulo := updateModulo_consistent { sh with magd := m1 } hN htail }

theorem runCommands_total (cmds : List ControlCmd) :
    ∀ sh, StateInv sh → ∃ sh1, runCommands cmds sh = some sh1 ∧ StateInv sh1 := by
  induction cmds with
  | nil => intro sh hinv; exact ⟨sh, rfl, hinv⟩
  | cons c cs ih =>
    intro sh hinv
    have hstep : ∃ sh1, runCommand c sh = some sh1 ∧ StateInv sh1 := by
      cases c with
      | activate ids => exact setActivate_total 1 ids sh hinv
      | deactivate ids => exact setActivate_total 0 ids sh hinv
    obtain ⟨sh1, h1, hinv1⟩ := hstep
    obtain ⟨sh2, h2, hinv2⟩ := ih sh1 hinv1
    refine ⟨sh2, ?_, hinv2⟩
    unfold runCommands
    rw [h1]
    exact h2

/-- C7: `create` (any options, arguments and `rand()` values) followed by any sequence of
`activate` / `deactivate` commands with any argument lists runs through and leaves a state
in which `modulo.nActive` is the number of indices `i < N` with `active[i] != 0` and
`modulo.lookup[0..nActive)` is the strictly increasing list of those indices. -/
theorem modulo_consistency (i fwOffset : Int) (args : List Int) (rand : Nat → Nat)
    (stack : ModuloAux) (cmds : List ControlCmd) :
    ∃ sh0 sh, cmdCreate i fwOffset args rand stack = some sh0 ∧
      runCommands cmds sh0 = some sh ∧
      sh.modulo.nActive = (activeList sh.magd.active sh.magd.N).length ∧
      (List.range sh.modulo.nActive).map sh.modulo.lookup
        = (activeList sh.magd.active sh.magd.N).map (fun (i : Nat) => (i : Int)) ∧
      List.Pairwise (fun a b => a < b) (activeList sh.magd.active sh.magd.N) ∧
      (∀ k, k ∈ activeList sh.magd.active sh.magd.N ↔
        k < sh.magd.N ∧ sh.magd.active k ≠ 0) := by
  obtain ⟨sh0, h0, hinv0⟩ := cmdCreate_total i fwOffset args rand stack
  obtain ⟨sh, h1, hinv⟩ := runCommands_total cmds sh0 hinv0
  obtain ⟨h2, h3⟩ := hinv.modulo
  refine ⟨sh0, sh, h0, h1, h2, h3, activeList_sorted _ _, ?_⟩
  intro k
  simp [activeList]

/-- C7, example: `create 19 5` followed by `deactivate 2` (with `fwOffset = 1`) leaves
`active = [1,0,1,1,0]`, and the modulo table is `nActive = 3`, `lookup = [0,2,3]`. -/
theorem modulo_consistency_witness :
    ∃ sh0 sh, cmdCreate (-1) 1 [19, 5] (fun k => k + 1) ⟨0, fun _ => 0⟩ = some sh0 ∧
      runCommands [ControlCmd.deactivate [2]] sh0 = some sh ∧
      (List.range sh.magd.N).map sh.magd.active = [1, 0, 1, 1, 0] ∧
      sh.modulo.nActive = 3 ∧ (List.range 3).map sh.modulo.lookup = [0, 2, 3] := by
  obtain ⟨sh0, sh, h0, h1, _⟩ :=
    modulo_consistency (-1) 1 [19, 5] (fun k => k + 1) ⟨0, fun _ => 0⟩
      [ControlCmd.deactivate [2]]
  have ha : ((cmdCreate (-1) 1 [19, 5] (fun k => k + 1) ⟨0, fun _ => 0⟩).bind
      (runCommands [ControlCmd.deactivate [2]])).map
      (fun sh => ((List.range sh.magd.N).map sh.magd.active, sh.modulo.nActive,
        (List.range 3).map sh.modulo.lookup))
      = some ([1, 0, 1, 1, 0], 3, [0, 2, 3]) := by decide
  rw [h0, Option.some_bind, h1] at ha
  simp only [Option.map_some', Option.some.injEq, Prod.mk.injEq] at ha
  exact ⟨sh0, sh, h0, h1, ha.1, ha.2.1, ha.2.2⟩

/-! ## The packet classifier -/

theorem djb2_step (h b : Nat) :
    (((h * 2 ^ 5) % 2 ^ 32 + h) % 2 ^ 32 + b) % 2 ^ 32 = (h * 33 + b) % 2 ^ 32 := by
  norm_num
  omega

theorem djb2_loop_eq (c : Nat → Nat) :
    ∀ len pos h, djb2_loop c len pos h
      = ((List.range len).map (fun j => byteAt c (pos + j))).foldl
          (fun h b => (h * 33 + b) % 2 ^ 32) h := by
  intro len
  induction len with
  | zero => intro pos h; rfl
  | succ len ih =>
    intro pos h
    unfold djb2_loop
    rw [ih, djb2_step, List.range_succ_eq_map, List.map_cons, List.foldl_cons, List.map_map]
    congr 1
    apply congrArg (fun f => List.map f (List.range len))
    funext j
    show byteAt c (pos + 1 + j) = byteAt c (pos + (j + 1))
    congr 1
    omega

theorem djb2_hash_slice (payload : Nat → Nat) (a len : Nat) :
    djb2_hash (fun j => payload (a + j)) len = DJB2 (slice payload a (a + len)) := by
  unfold djb2_hash DJB2 slice
  rw [djb2_loop_eq, Nat.add_sub_cancel_left]
  congr 1
  apply congrArg (fun f => List.map f (List.range len))
  funext j
  show payload (a + (0 + j)) % 256 = payload (a + j) % 256
  rw [Nat.zero_add]

theorem frag_mask (x : Nat) : x &&& (IP_OFFMASK ||| IP_MF) = x % 2 ^ 14 := by
  have h : IP_OFFMASK ||| IP_MF = 2 ^ 14 - 1 := by decide
  rw [h, Nat.and_pow_two_sub_one_eq_mod]

theorem ipv6Case_after_ipv4 (get_mark : Nat → Option Nat) (portlen : Nat)
    (payload : Nat → Nat)
    (hfrag : (byteAt payload 6 * 256 + byteAt payload 7) &&& (IP_OFFMASK ||| IP_MF) = 0) :
    ipv6Case get_mark portlen payload = some 0 := by
  rw [frag_mask] at hfrag
  have h7 : byteAt payload 7 < 256 := Nat.mod_lt _ (by decide)
  have hne6 : byteAt payload 6 ≠ IPPROTO_TCP := by
    intro h
    rw [h] at hfrag
    simp only [IPPROTO_TCP] at hfrag
    omega
  unfold ipv6Case
  rw [if_neg hne6]
  split
  · split <;> rfl
  · rfl

theorem toU32_of_range (z : Int) (h0 : 0 ≤ z) (h1 : z < 2 ^ 32) : (toU32 z : Int) = z := by
  unfold toU32
  rw [Int.emod_eq_of_lt h0 h1, Int.toNat_of_nonneg h0]

/-- C8: an IPv4 packet with header-length field 5, more-fragments flag clear, fragment
offset 0 and protocol TCP gets `get_mark (DJB2 (payload[12 .. 20 + portlen)))`; an IPv6
packet whose next-header field is TCP gets `get_mark (DJB2 (payload[8 .. 40 + portlen)))`;
`portlen` is 0 by default and 4 with option `-p`; `DJB2` starts at 5381 and folds
`h <- (h * 33 + b) mod 2^32` over the key bytes in order; in Maglev mode
`get_mark h = lookup[h mod M] + fwOffset`, the `int` sum converted to `uint32_t`.  The
code does not read `plen`, so the packet length does not enter. -/
theorem handlePacket_tcp (get_mark : Nat → Option Nat) (p : Bool) (payload : Nat → Nat)
    (plen : Nat) :
    (byteAt payload 0 % 16 = 5 →
      (byteAt payload 6 * 256 + byteAt payload 7) &&& IP_MF = 0 →
      (byteAt payload 6 * 256 + byteAt payload 7) &&& IP_OFFMASK = 0 →
      byteAt payload 9 = IPPROTO_TCP →
      handlePacket get_mark (cmdRun_portlen p) ETH_P_IP payload plen
        = get_mark (DJB2 (slice payload 12 (20 + cmdRun_portlen p)))) ∧
    (byteAt payload 6 = IPPROTO_TCP →
      handlePacket get_mark (cmdRun_portlen p) ETH_P_IPV6 payload plen
        = get_mark (DJB2 (slice payload 8 (40 + cmdRun_portlen p)))) ∧
    (cmdRun_portlen false = 0 ∧ cmdRun_portlen true = 4) ∧
    (DJB2 [] = 5381 ∧ ∀ key b, DJB2 (key ++ [b]) = (DJB2 key * 33 + b) % 2 ^ 32) ∧
    (∀ sh hash, 1 ≤ sh.magd.M → sh.magd.M ≤ MAX_M →
      get_maglev_mark sh hash
        = some (toU32 (sh.magd.lookup (hash % sh.magd.M) + sh.fwOffset)) ∧
      (0 ≤ sh.magd.lookup (hash % sh.magd.M) + sh.fwOffset →
        sh.magd.lookup (hash % sh.magd.M) + sh.fwOffset < 2 ^ 32 →
        (toU32 (sh.magd.lookup (hash % sh.magd.M) + sh.fwOffset) : Int)
          = sh.magd.lookup (hash % sh.magd.M) + sh.fwOffset)) := by
  refine ⟨?_, ?_, ⟨rfl, rfl⟩, ⟨rfl, ?_⟩, ?_⟩
  · intro hihl hmf hoff htcp
    have hfrag : (byteAt payload 6 * 256 + byteAt payload 7) &&& (IP_OFFMASK ||| IP_MF) = 0 := by
      rw [Nat.and_or_distrib_left, hmf, hoff]; rfl
    have h20 : 20 + cmdRun_portlen p = 12 + (8 + cmdRun_portlen p) := by omega
    unfold handlePacket
    simp only [if_true, hihl, lt_irrefl, if_false, hfrag, ne_eq, not_true_eq_false, htcp]
    rw [h20, djb2_hash_slice]
  · intro htcp
    have h40 : 40 + cmdRun_portlen p = 8 + (32 + cmdRun_portlen p) := by omega
    have hne : ETH_P_IPV6 ≠ ETH_P_IP := by decide
    unfold handlePacket ipv6Case
    simp only [hne, if_false, if_true, htcp]
    rw [h40, djb2_hash_slice]
  · intro key b
    unfold DJB2
    rw [List.foldl_append]
    rfl
  · intro sh hash hM1 hM
    refine ⟨?_, toU32_of_range _⟩
    have hM0 : sh.magd.M ≠ 0 := by omega
    have hidx : hash % sh.magd.M < MAX_M :=
      lt_of_lt_of_le (Nat.mod_lt _ (by omega)) hM
    unfold get_maglev_mark
    rw [if_neg hM0, if_pos hidx]

/-- Witness of C8: the IPv4 TCP packet 10.0.0.1 -> 10.0.0.2, classified in Maglev mode
against the table of the paper example, gets mark 1. -/
theorem handlePacket_tcp_witness :
    (byteAt (examplePacket 5 6) 0 % 16 = 5 ∧
      (byteAt (examplePacket 5 6) 6 * 256 + byteAt (examplePacket 5 6) 7) &&& IP_MF = 0 ∧
      (byteAt (examplePacket 5 6) 6 * 256 + byteAt (examplePacket 5 6) 7) &&& IP_OFFMASK = 0 ∧
      byteAt (examplePacket 5 6) 9 = IPPROTO_TCP) ∧
    handlePacket (get_maglev_mark exampleShared) (cmdRun_portlen false) ETH_P_IP
        (examplePacket 5 6) 40
      = get_maglev_mark exampleShared
          (DJB2 (slice (examplePacket 5 6) 12 (20 + cmdRun_portlen false))) ∧
    get_maglev_mark exampleShared
        (DJB2 (slice (examplePacket 5 6) 12 (20 + cmdRun_portlen false))) = some 1 :=
  ⟨⟨by decide, by decide, by decide, by decide⟩,
    (handlePacket_tcp (get_maglev_mark exampleShared) false (examplePacket 5 6) 40).1
      (by decide) (by decide) (by decide) (by decide),
    by decide⟩

/-- C9, counterexample: the IPv4 TCP packet 10.0.0.1 -> 10.0.0.2 with header-length field
4 (not 5) is classified: in Maglev mode against the table of the paper example it gets
mark 1, not 0. -/
theorem ihl_counterexample :
    byteAt (examplePacket 4 6) 0 % 16 ≠ 5 ∧
    handlePacket (get_maglev_mark exampleShared) 0 ETH_P_IP (examplePacket 4 6) 40 = some 1 :=
  ⟨by decide, by decide⟩

/-- C9, amended: every IPv4 packet whose header-length field is greater than 5 gets mark 0,
whatever the protocol field, the table contents (`get_mark`) and `portlen`. -/
theorem handlePacket_options (get_mark : Nat → Option Nat) (portlen : Nat)
    (payload : Nat → Nat) (plen : Nat) (hihl : 5 < byteAt payload 0 % 16) :
    handlePacket get_mark portlen ETH_P_IP payload plen = some 0 := by
  unfold handlePacket
  simp only [if_true, hihl]

/-- Witness of the amended C9: the TCP packet 10.0.0.1 -> 10.0.0.2 with header-length
field 6 gets mark 0. -/
theorem handlePacket_options_witness :
    5 < byteAt (examplePacket 6 6) 0 % 16 ∧
    handlePacket (get_maglev_mark exampleShared) 0 ETH_P_IP (examplePacket 6 6) 40 = some 0 :=
  ⟨by decide,
    handlePacket_options (get_maglev_mark exampleShared) 0 (examplePacket 6 6) 40 (by decide)⟩

/-- C10: a packet whose L2 protocol is IPv4 and whose protocol field is not TCP, an IPv6
packet whose next-header field is not TCP, and a packet whose L2 protocol is neither IPv4
nor IPv6 all get 0.  The first part covers the IPv4 packets that leave the `case ETH_P_IP`
block without returning and run into the `case ETH_P_IPV6` block: that block never gives
them a mark. -/
theorem handlePacket_non_tcp (get_mark : Nat → Option Nat) (portlen protocol : Nat)
    (payload : Nat → Nat) (plen : Nat) :
    (protocol = ETH_P_IP → byteAt payload 9 ≠ IPPROTO_TCP →
      handlePacket get_mark portlen protocol payload plen = some 0) ∧
    (protocol = ETH_P_IPV6 → byteAt payload 6 ≠ IPPROTO_TCP →
      handlePacket get_mark portlen protocol payload plen = some 0) ∧
    (protocol ≠ ETH_P_IP → protocol ≠ ETH_P_IPV6 →
      handlePacket get_mark portlen protocol payload plen = some 0) := by
  refine ⟨?_, ?_, ?_⟩
  · intro hp hproto
    unfold handlePacket
    rw [if_pos hp]
    by_cases hihl : 5 < byteAt payload 0 % 16
    · rw [if_pos hihl]
    · rw [if_neg hihl]
      dsimp only
      by_cases hfrag :
          (byteAt payload 6 * 256 + byteAt payload 7) &&& (IP_OFFMASK ||| IP_MF) = 0
      · have h6 := ipv6Case_after_ipv4 get_mark portlen payload hfrag
        rw [if_neg (not_not.mpr hfrag), if_neg hproto, h6]
        split
        · split <;> rfl
        · rfl
      · rw [if_pos hfrag]
  · intro hp hnxt
    have hne : ETH_P_IPV6 ≠ ETH_P_IP := by decide
    unfold handlePacket ipv6Case
    rw [hp, if_neg hne, if_pos rfl, if_neg hnxt]
    split
    · split <;> rfl
    · rfl
  · intro h4 h6
    unfold handlePacket
    rw [if_neg h4, if_neg h6]

/-- Witness of C10: a UDP packet over IPv4 (DF flag set, so the IPv4 block falls through
to the IPv6 block), an IPv6 packet with next header UDP, and an ARP frame. -/
theorem handlePacket_non_tcp_witness :
    (byteAt (examplePacket 5 17) 9 ≠ IPPROTO_TCP ∧
      handlePacket (get_maglev_mark exampleShared) 0 ETH_P_IP (examplePacket 5 17) 40
        = some 0) ∧
    (byteAt (bufferOf [0x60, 0, 0, 0, 0, 8, 17, 64]) 6 ≠ IPPROTO_TCP ∧
      handlePacket (get_maglev_mark exampleShared) 0 ETH_P_IPV6
        (bufferOf [0x60, 0, 0, 0, 0, 8, 17, 64]) 48 = some 0) ∧
    ((0x0806 ≠ ETH_P_IP ∧ 0x0806 ≠ ETH_P_IPV6) ∧
      handlePacket (get_maglev_mark exampleShared) 0 0x0806 (examplePacket 5 17) 40
        = some 0) :=
  ⟨⟨by decide,
      (handlePacket_non_tcp (get_maglev_mark exampleShared) 0 ETH_P_IP
        (examplePacket 5 17) 40).1 rfl (by decide)⟩,
    ⟨by decide,
      (handlePacket_non_tcp (get_maglev_mark exampleShared) 0 ETH_P_IPV6
        (bufferOf [0x60, 0, 0, 0, 0, 8, 17, 64]) 48).2.1 rfl (by decide)⟩,
    ⟨⟨by decide, by decide⟩,
      (handlePacket_non_tcp (get_maglev_mark exampleShared) 0 0x0806
        (examplePacket 5 17) 40).2.2 (by decide) (by decide)⟩⟩

end Lb

namespace Lb

open Maglev

/-! ## Vacant tables -/

theorem get_modulo_mark_vacant (sh : SharedData) (hash : Nat) (h0 : sh.modulo.nActive = 0) :
    get_modulo_mark sh hash = none := by
  unfold get_modulo_mark
  rw [if_pos h0]

/-- C11, the code at the failing input: after `create 19 4` and `deactivate 1 2 3 4` (with
`fwOffset = 1`) no backend is active and `modulo.nActive = 0`; in modulo mode the mark of
the IPv4 TCP packet 10.0.0.1 -> 10.0.0.2 is the undefined `hash % 0`, not 0. -/
theorem modulo_vacant_undefined :
    ∃ sh0 sh, cmdCreate (-1) 1 [19, 4] (fun k => k + 1) ⟨0, fun _ => 0⟩ = some sh0 ∧
      runCommands [ControlCmd.deactivate [1, 2, 3, 4]] sh0 = some sh ∧
      sh.modulo.nActive = 0 ∧
      (∀ hash, get_modulo_mark sh hash = none) ∧
      handlePacket (get_modulo_mark sh) 0 ETH_P_IP (examplePacket 5 6) 40 = none := by
  obtain ⟨sh0, h0, hinv0⟩ := cmdCreate_total (-1) 1 [19, 4] (fun k => k + 1) ⟨0, fun _ => 0⟩
  obtain ⟨sh, h1, _⟩ := runCommands_total [ControlCmd.deactivate [1, 2, 3, 4]] sh0 hinv0
  have ha : ((cmdCreate (-1) 1 [19, 4] (fun k => k + 1) ⟨0, fun _ => 0⟩).bind
      (runCommands [ControlCmd.deactivate [1, 2, 3, 4]])).map
      (fun sh => (sh.modulo.nActive,
        handlePacket (get_modulo_mark sh) 0 ETH_P_IP (examplePacket 5 6) 40))
      = some (0, none) := by decide
  rw [h0, Option.some_bind, h1] at ha
  simp only [Option.map_some', Option.some.injEq, Prod.mk.injEq] at ha
  exact ⟨sh0, sh, h0, h1, ha.1, fun hash => get_modulo_mark_vacant sh hash ha.1, ha.2⟩

theorem handlePacket_const (get_mark : Nat → Option Nat) (m : Nat)
    (hg : ∀ h, get_mark h = some m) (portlen protocol : Nat) (payload : Nat → Nat)
    (plen : Nat) :
    handlePacket get_mark portlen protocol payload plen = some 0 ∨
    handlePacket get_mark portlen protocol payload plen = some m := by
  unfold handlePacket ipv6Case
  simp only [hg]
  repeat' split
  all_goals first | exact Or.inl rfl | exact Or.inr rfl

theorem toU32_zero_iff (z : Int) (hlo : -2 ^ 31 ≤ z) (hhi : z < 2 ^ 31) :
    toU32 (z - 1) = 0 ↔ z = 1 := by
  unfold toU32
  constructor
  · intro h
    have h1 : (z - 1) % 2 ^ 32 = 0 := by
      have hnn : 0 ≤ (z - 1) % 2 ^ 32 := Int.emod_nonneg _ (by norm_num)
      have := Int.toNat_of_nonneg hnn
      rw [h] at this
      exact this.symm
    omega
  · intro h
    rw [h]
    rfl

/-- C12, counterexample: after `create -o 5 19 4` and `deactivate 5 6 7 8` no backend is
active, every `lookup[c]` is `-1`, and in Maglev mode the IPv4 TCP packet
10.0.0.1 -> 10.0.0.2 gets mark 4, not 0. -/
theorem maglev_vacant_counterexample :
    ((cmdCreate (-1) 5 [19, 4] (fun k => k + 1) ⟨0, fun _ => 0⟩).bind
      (runCommands [ControlCmd.deactivate [5, 6, 7, 8]])).map
      (fun sh => ((List.range sh.magd.N).map sh.magd.active, lookupList sh.magd,
        handlePacket (get_maglev_mark sh) 0 ETH_P_IP (examplePacket 5 6) 40))
      = some ([0, 0, 0, 0],
          [-1, -1, -1, -1, -1, -1, -1, -1, -1, -1, -1, -1, -1, -1, -1, -1, -1, -1, -1],
          some 4) := by
  decide

/-- C12, amended: for a table with `1 ≤ M ≤ MAX_M`, `N ≤ MAX_N` and no active backend,
`populate` returns, and for every `fwOffset` and every hash the Maglev-mode mark is
`fwOffset - 1` converted to `uint32_t`; for an `int` `fwOffset` this is 0 exactly when
`fwOffset = 1` (the default of `create`), and then `handlePacket` returns 0 for every
packet. -/
theorem maglev_vacant_mark (d : MagData) (own fwOffset : Int) (modulo : ModuloAux)
    (hM1 : 1 ≤ d.M) (hM : d.M ≤ MAX_M) (hN : d.N ≤ MAX_N)
    (h0 : ∀ i, i < d.N → d.active i = 0) :
    ∃ d1, populate d = some d1 ∧
      (∀ hash, get_maglev_mark
          { ownFwmark := own, fwOffset := fwOffset, magd := d1, modulo := modulo } hash
        = some (toU32 (fwOffset - 1))) ∧
      (-2 ^ 31 ≤ fwOffset → fwOffset < 2 ^ 31 → (toU32 (fwOffset - 1) = 0 ↔ fwOffset = 1)) ∧
      (fwOffset = 1 → ∀ portlen protocol payload plen,
        handlePacket (get_maglev_mark
          { ownFwmark := own, fwOffset := fwOffset, magd := d1, modulo := modulo })
          portlen protocol payload plen = some 0) := by
  have hmark : ∀ hash, get_maglev_mark
      { ownFwmark := own, fwOffset := fwOffset,
        magd := { d with lookup := fun c => if c < d.M then -1 else d.lookup c },
        modulo := modulo } hash = some (toU32 (fwOffset - 1)) := by
    intro hash
    have hlt : hash % d.M < d.M := Nat.mod_lt _ (by omega)
    unfold get_maglev_mark
    simp only [show d.M ≠ 0 by omega, if_false, lt_of_lt_of_le hlt hM, if_true, hlt]
    congr 2
    omega
  refine ⟨_, populate_inactive d hM hN h0, hmark, toU32_zero_iff fwOffset, ?_⟩
  intro h1 portlen protocol payload plen
  have hz : ∀ hash, get_maglev_mark
      { ownFwmark := own, fwOffset := fwOffset,
        magd := { d with lookup := fun c => if c < d.M then -1 else d.lookup c },
        modulo := modulo } hash = some 0 := by
    intro hash
    rw [hmark hash, h1]
    rfl
  rcases handlePacket_const _ 0 hz portlen protocol payload plen with h | h <;> exact h

/-- Witness of the amended C12: the paper example with every backend switched off and
`fwOffset = 1`. -/
theorem maglev_vacant_mark_witness :
    (1 ≤ initExample.M ∧ initExample.M ≤ MAX_M ∧ initExample.N ≤ MAX_N ∧
      ∀ i, i < initExample.N → (fun _ => 0 : Nat → Nat) i = 0) ∧
    ∃ d1, populate { initExample with active := fun _ => 0 } = some d1 ∧
      (∀ hash, get_maglev_mark
          { ownFwmark := -1, fwOffset := 1, magd := d1, modulo := ⟨0, fun _ => 0⟩ } hash
        = some (toU32 (1 - 1))) ∧
      (-2 ^ 31 ≤ (1 : Int) → (1 : Int) < 2 ^ 31 → (toU32 (1 - 1) = 0 ↔ (1 : Int) = 1)) ∧
      ((1 : Int) = 1 → ∀ portlen protocol payload plen,
        handlePacket (get_maglev_mark
          { ownFwmark := -1, fwOffset := 1, magd := d1, modulo := ⟨0, fun _ => 0⟩ })
          portlen protocol payload plen = some 0) :=
  ⟨⟨by decide, by decide, by decide, fun _ _ => rfl⟩,
    maglev_vacant_mark { initExample with active := fun _ => 0 } (-1) 1 ⟨0, fun _ => 0⟩
      (by decide) (by decide) (by decide) (fun _ _ => rfl)⟩

/-! ## The clamps of `create` -/

theorem isPrimeLoop_of_prime (n : Nat) (hprime : Nat.Prime n) :
    ∀ l, (∀ p, p ∈ l → 2 ≤ p) → isPrimeLoop n l = true := by
  intro l
  induction l with
  | nil => intro _; rfl
  | cons q qs ih =>
    intro hl
    unfold isPrimeLoop
    by_cases hle : n ≤ q
    · rw [if_pos hle]
    · rw [if_neg hle]
      have hq2 : 2 ≤ q := hl q (List.mem_cons_self q qs)
      have hnd : ¬ n % q = 0 := by
        intro hmod
        rcases (Nat.dvd_prime hprime).mp (Nat.dvd_of_mod_eq_zero hmod) with h | h <;> omega
      rw [if_neg hnd]
      exact ih (fun p hp => hl p (List.mem_cons_of_mem q hp))

theorem isPrime_complete (n : Nat) (hprime : Nat.Prime n) : isPrime n = true :=
  isPrimeLoop_of_prime n hprime primes100 (by decide)

theorem isPrime_iff (n : Nat) (h2 : 2 ≤ n) (hM : n ≤ MAX_M) :
    isPrime n = true ↔ Nat.Prime n :=
  ⟨isPrime_sound n h2 hM, isPrime_complete n⟩

theorem isPrime_even (n : Nat) (h2 : 2 < n) (heven : n % 2 = 0) : isPrime n = false := by
  unfold isPrime primes100 isPrimeLoop
  rw [if_neg (by omega), if_pos heven]

theorem primeBelowLoop_largest :
    ∀ fuel n, n % 2 = 1 → 3 ≤ n → n < 3 + 2 * fuel →
      isPrime (primeBelowLoop fuel n) = true ∧ primeBelowLoop fuel n ≤ n ∧
        ∀ q, primeBelowLoop fuel n < q → q ≤ n → isPrime q = false := by
  intro fuel
  induction fuel with
  | zero => intro n _ h1 h2; omega
  | succ fuel ih =>
    intro n hodd h3 hfuel
    unfold primeBelowLoop
    rw [if_pos (by omega)]
    by_cases hp : isPrime n = true
    · rw [if_pos hp]
      exact ⟨hp, le_refl n, fun q h1 h2 => by omega⟩
    · rw [if_neg hp]
      have hne : n ≠ 3 := by
        intro h; rw [h] at hp; exact hp (by decide)
      obtain ⟨h1, h2, h4⟩ := ih (n - 2) (by omega) (by omega) (by omega)
      refine ⟨h1, by omega, ?_⟩
      intro q hq1 hq2
      by_cases hqn : q = n
      · rw [hqn]; simpa using hp
      · by_cases hqn1 : q = n - 1
        · exact isPrime_even q (by omega) (by omega)
        · exact h4 q hq1 (by omega)

theorem primeBelow_largest (n : Nat) (h2 : 2 ≤ n) :
    isPrime (primeBelow n) = true ∧ primeBelow n ≤ n ∧
      ∀ q, primeBelow n < q → q ≤ n → isPrime q = false := by
  unfold primeBelow
  by_cases hp : isPrime n = true
  · rw [if_pos hp]
    exact ⟨hp, le_refl n, fun q h1 h3 => by omega⟩
  · rw [if_neg hp]
    have hne2 : n ≠ 2 := by
      intro h; rw [h] at hp; exact hp (by decide)
    have hne3 : n ≠ 3 := by
      intro h; rw [h] at hp; exact hp (by decide)
    by_cases heven : n % 2 = 0
    · rw [if_pos heven]
      obtain ⟨h1, h3, h4⟩ := primeBelowLoop_largest n (n - 1) (by omega) (by omega) (by omega)
      refine ⟨h1, by omega, ?_⟩
      intro q hq1 hq2
      by_cases hqn : q = n
      · rw [hqn]; simpa using hp
      · exact h4 q hq1 (by omega)
    · rw [if_neg heven]
      exact primeBelowLoop_largest n n (by omega) (by omega) (by omega)

theorem primeBelow_prime_max (n : Nat) (h2 : 2 ≤ n) (hM : n ≤ MAX_M) :
    Nat.Prime (primeBelow n) ∧ primeBelow n ≤ n ∧
      ∀ q, Nat.Prime q → q ≤ n → q ≤ primeBelow n := by
  obtain ⟨h1, h3, h4⟩ := primeBelow_largest n h2
  have hpos : 2 ≤ primeBelow n := by
    by_contra hlt
    have := h4 2 (by omega) h2
    exact absurd this (by decide)
  refine ⟨isPrime_sound _ hpos (le_trans h3 hM) h1, h3, ?_⟩
  intro q hq hqn
  by_contra hgt
  have := h4 q (by omega) hqn
  rw [isPrime_complete q hq] at this
  cases this

theorem toU32_of_nonneg (z : Int) (h0 : 0 ≤ z) (h1 : z < 2 ^ 32) : toU32 z = z.toNat := by
  unfold toU32
  rw [Int.emod_eq_of_lt h0 h1]

theorem toU32_of_neg (z : Int) (hlo : -2 ^ 31 ≤ z) (h0 : z < 0) : 2 ^ 31 ≤ toU32 z := by
  unfold toU32
  have h : z % 2 ^ 32 = z + 2 ^ 32 := by omega
  rw [h]
  omega

/-- C13, counterexample: `create -1` stores the request in the `unsigned M` as
4294967295, clamps it to `MAX_M` and accepts 9973, although the request is below 20. -/
theorem createM_counterexample : (-1 : Int) < 20 ∧ createM (some (-1)) = 9973 := by
  decide

/-- C13, amended: for every `int` request `z` the table size `p` accepted by `create` is a
prime with `19 ≤ p ≤ MAX_M`; `p = 19` when `0 ≤ z < 20`; when `20 ≤ z`, `p` is the largest
prime `≤ min(z, MAX_M)`, hence `p ≤ z`; when `z < 0` the unsigned value is above `MAX_M` and
`p = 9973`.  `isPrime` is exact on `[2, MAX_M]` and `primeBelow` returns the largest prime
not above its argument there. -/
theorem createM_clamp (z : Int) (hlo : -2 ^ 31 ≤ z) (hhi : z < 2 ^ 31) :
    (Nat.Prime (createM (some z)) ∧ 19 ≤ createM (some z) ∧ createM (some z) ≤ MAX_M) ∧
    (0 ≤ z → z < 20 → createM (some z) = 19) ∧
    (20 ≤ z → (createM (some z) : Int) ≤ z ∧
      ∀ q, Nat.Prime q → (q : Int) ≤ z → q ≤ MAX_M → q ≤ createM (some z)) ∧
    (z < 0 → createM (some z) = 9973) ∧
    (∀ n, 2 ≤ n → n ≤ MAX_M → (isPrime n = true ↔ Nat.Prime n)) ∧
    (∀ n, 2 ≤ n → n ≤ MAX_M → Nat.Prime (primeBelow n) ∧ primeBelow n ≤ n ∧
      ∀ q, Nat.Prime q → q ≤ n → q ≤ primeBelow n) := by
  have hMAX : MAX_M = 10000 := rfl
  refine ⟨createM_prime (some z), ?_, ?_, ?_, isPrime_iff, primeBelow_prime_max⟩
  · intro h0 h20
    have hu : toU32 z < 20 := by rw [toU32_of_nonneg z h0 (by omega)]; omega
    simp only [createM, hu, if_true]
    decide
  · intro h20
    have hu : toU32 z = z.toNat := toU32_of_nonneg z (by omega) (by omega)
    have hnl : ¬ z.toNat < 20 := by omega
    simp only [createM, hu, hnl, if_false]
    by_cases hbig : z.toNat > MAX_M
    · rw [if_pos hbig]
      obtain ⟨_, h3, h4⟩ := primeBelow_prime_max MAX_M (by decide) (le_refl _)
      refine ⟨by omega, ?_⟩
      intro q hq _ hqM
      exact h4 q hq hqM
    · rw [if_neg hbig]
      obtain ⟨_, h3, h4⟩ := primeBelow_prime_max z.toNat (by omega) (by omega)
      refine ⟨by omega, ?_⟩
      intro q hq hqz _
      exact h4 q hq (by omega)
  · intro hneg
    have hu := toU32_of_neg z hlo hneg
    have hnl : ¬ toU32 z < 20 := by omega
    have hbig : toU32 z > MAX_M := by omega
    simp only [createM, hnl, if_false, hbig, if_true]
    decide

/-- Witness of the amended C13: the request 1000. -/
theorem createM_clamp_witness :
    (-2 ^ 31 ≤ (1000 : Int) ∧ (1000 : Int) < 2 ^ 31) ∧
    (Nat.Prime (createM (some 1000)) ∧ 19 ≤ createM (some 1000) ∧
      createM (some 1000) ≤ MAX_M) ∧
    createM (some 1000) = 997 :=
  ⟨⟨by decide, by decide⟩,
    (createM_clamp 1000 (by decide) (by decide)).1, by decide⟩

/-- C16, counterexample: `create 997 -1` stores the request in the `unsigned N` as
4294967295 and accepts `MAX_N = 100`, although the request is below 4. -/
theorem createN_counterexample : (-1 : Int) < 4 ∧ createN (some (-1)) = 100 := by
  decide

/-- C16, amended: for every `int` request `z` the backend bound accepted by `create` is 4
when `0 ≤ z < 4`, `MAX_N` when `z > MAX_N`, `z` when `4 ≤ z ≤ MAX_N`, and `MAX_N` when
`z < 0` (the unsigned value is above `MAX_N`). -/
theorem createN_clamp (z : Int) (hlo : -2 ^ 31 ≤ z) (hhi : z < 2 ^ 31) :
    (0 ≤ z → z < 4 → createN (some z) = 4) ∧
    ((MAX_N : Int) < z → createN (some z) = MAX_N) ∧
    (4 ≤ z → z ≤ (MAX_N : Int) → (createN (some z) : Int) = z) ∧
    (z < 0 → createN (some z) = MAX_N) := by
  have hMAX : MAX_N = 100 := rfl
  refine ⟨?_, ?_, ?_, ?_⟩
  · intro h0 h4
    have hu : toU32 z = z.toNat := toU32_of_nonneg z h0 (by omega)
    simp only [createN, hu]
    split <;> split <;> omega
  · intro hbig
    have hu : toU32 z = z.toNat := toU32_of_nonneg z (by omega) (by omega)
    simp only [createN, hu]
    split <;> split <;> omega
  · intro h4 h100
    have hu : toU32 z = z.toNat := toU32_of_nonneg z (by omega) (by omega)
    simp only [createN, hu]
    split <;> split <;> omega
  · intro hneg
    have hu := toU32_of_neg z hlo hneg
    simp only [createN]
    split <;> split <;> omega

/-- Witness of the amended C16: the requests 2, 500, 10 and -3. -/
theorem createN_clamp_witness :
    createN (some 2) = 4 ∧ createN (some 500) = MAX_N ∧ (createN (some 10) : Int) = 10 ∧
    createN (some (-3)) = MAX_N :=
  ⟨(createN_clamp 2 (by decide) (by decide)).1 (by decide) (by decide),
    (createN_clamp 500 (by decide) (by decide)).2.1 (by decide),
    (createN_clamp 10 (by decide) (by decide)).2.2.1 (by decide) (by decide),
    (createN_clamp (-3) (by decide) (by decide)).2.2.2 (by decide)⟩

/-! ## Hash value and fragments -/

/-- C14, counterexample: `djb2_hash` of the key bytes `0a 00 00 01 0a 00 00 02` is not
`0x7c8f9a33`. -/
theorem djb2_reference_counterexample :
    djb2_hash (bufferOf [0x0a, 0x00, 0x00, 0x01, 0x0a, 0x00, 0x00, 0x02]) 8 ≠ 0x7c8f9a33 := by
  decide

/-- C14, amended: `djb2_hash` of the 8 key bytes `0a 00 00 01 0a 00 00 02` (source
10.0.0.1, destination 10.0.0.2, port extension off) is `0xb65d2f1c`, which is also the
value of the specification's fold `DJB2`. -/
theorem djb2_reference_value :
    djb2_hash (bufferOf [0x0a, 0x00, 0x00, 0x01, 0x0a, 0x00, 0x00, 0x02]) 8 = 0xb65d2f1c ∧
    DJB2 [0x0a, 0x00, 0x00, 0x01, 0x0a, 0x00, 0x00, 0x02] = 0xb65d2f1c ∧
    djb2_hash (fun j => examplePacket 5 6 (12 + j)) (8 + cmdRun_portlen false)
      = 0xb65d2f1c := by
  decide

theorem frag_mask_parts (x : Nat) (h : x &&& (IP_OFFMASK ||| IP_MF) = 0) :
    x &&& IP_MF = 0 ∧ x &&& IP_OFFMASK = 0 := by
  have hmf : (IP_OFFMASK ||| IP_MF) &&& IP_MF = IP_MF := by decide
  have hoff : (IP_OFFMASK ||| IP_MF) &&& IP_OFFMASK = IP_OFFMASK := by decide
  constructor
  · rw [← hmf, ← Nat.and_assoc, h, Nat.zero_and]
  · rw [← hoff, ← Nat.and_assoc, h, Nat.zero_and]

/-- C17: every IPv4 packet whose more-fragments flag is set or whose 13-bit fragment offset
is nonzero (bytes 6-7 in network order) gets mark 0, whatever the protocol field, the table
contents (`get_mark`) and `portlen`. -/
theorem handlePacket_fragment (get_mark : Nat → Option Nat) (portlen : Nat)
    (payload : Nat → Nat) (plen : Nat)
    (hfrag : (byteAt payload 6 * 256 + byteAt payload 7) &&& IP_MF ≠ 0 ∨
      (byteAt payload 6 * 256 + byteAt payload 7) &&& IP_OFFMASK ≠ 0) :
    handlePacket get_mark portlen ETH_P_IP payload plen = some 0 := by
  have hne : (byteAt payload 6 * 256 + byteAt payload 7) &&& (IP_OFFMASK ||| IP_MF) ≠ 0 := by
    intro h
    obtain ⟨h1, h2⟩ := frag_mask_parts _ h
    rcases hfrag with h3 | h3
    · exact h3 h1
    · exact h3 h2
  unfold handlePacket
  rw [if_pos rfl]
  by_cases hihl : 5 < byteAt payload 0 % 16
  · rw [if_pos hihl]
  · rw [if_neg hihl]
    dsimp only
    rw [if_pos hne]

/-- Witness of C17: a first fragment (more-fragments flag set) and a later fragment
(fragment offset 185) of a TCP packet 10.0.0.1 -> 10.0.0.2. -/
theorem handlePacket_fragment_witness :
    handlePacket (get_maglev_mark exampleShared) 0 ETH_P_IP
      (bufferOf [0x45, 0, 0, 40, 0, 0, 0x20, 0, 64, 6, 0, 0, 10, 0, 0, 1, 10, 0, 0, 2]) 40
      = some 0 ∧
    handlePacket (get_maglev_mark exampleShared) 0 ETH_P_IP
      (bufferOf [0x45, 0, 0, 40, 0, 0, 0x00, 185, 64, 6, 0, 0, 10, 0, 0, 1, 10, 0, 0, 2]) 40
      = some 0 :=
  ⟨handlePacket_fragment _ 0 _ 40 (Or.inl (by decide)),
    handlePacket_fragment _ 0 _ 40 (Or.inr (by decide))⟩

/-! ## Effect of `activate` / `deactivate` -/

theorem toI32_of_range (z : Int) (h0 : -2 ^ 31 ≤ z) (h1 : z < 2 ^ 31) : toI32 z = z := by
  unfold toI32
  omega

theorem idIndex_small (fwOffset x : Int) (N : Nat) (h0 : 0 ≤ x - fwOffset)
    (hlt : (x - fwOffset).toNat < N) (hN : N ≤ MAX_N) : idIndex fwOffset x = x - fwOffset := by
  have h100 : MAX_N = 100 := rfl
  have := Int.toNat_of_nonneg h0
  unfold idIndex
  exact toI32_of_range _ (by omega) (by omega)

theorem setActivateLoop_hit (fwOffset : Int) (N v : Nat) :
    ∀ ids active j,
      (∃ id, id ∈ ids ∧ 0 ≤ idIndex fwOffset id ∧ (idIndex fwOffset id).toNat < N ∧
        (idIndex fwOffset id).toNat = j) →
      setActivateLoop fwOffset N v ids active j = v := by
  intro ids
  induction ids with
  | nil => rintro active j ⟨id, hmem, _⟩; cases hmem
  | cons a ids ih =>
    rintro active j ⟨id, hmem, h0, hN, hj⟩
    by_cases hlater : ∃ id, id ∈ ids ∧ 0 ≤ idIndex fwOffset id ∧ (idIndex fwOffset id).toNat < N ∧
        (idIndex fwOffset id).toNat = j
    · unfold setActivateLoop
      dsimp only
      split
      · exact ih _ j hlater
      · exact ih _ j hlater
    · have hida : id = a := by
        rcases List.mem_cons.mp hmem with h | h
        · exact h
        · exact absurd ⟨id, h, h0, hN, hj⟩ hlater
      subst hida
      unfold setActivateLoop
      dsimp only
      rw [if_pos ⟨h0, hN⟩]
      clear ih
      -- no later argument writes index `j`
      have hkeep : ∀ ids1 act, (¬ ∃ id1, id1 ∈ ids1 ∧ 0 ≤ idIndex fwOffset id1 ∧
          (idIndex fwOffset id1).toNat < N ∧ (idIndex fwOffset id1).toNat = j) →
          setActivateLoop fwOffset N v ids1 act j = act j := by
        intro ids1
        induction ids1 with
        | nil => intro act _; rfl
        | cons b ids1 ih1 =>
          intro act hno
          have hno1 : ¬ ∃ id1, id1 ∈ ids1 ∧ 0 ≤ idIndex fwOffset id1 ∧
              (idIndex fwOffset id1).toNat < N ∧ (idIndex fwOffset id1).toNat = j := by
            rintro ⟨id1, h1, h2⟩
            exact hno ⟨id1, List.mem_cons_of_mem b h1, h2⟩
          unfold setActivateLoop
          dsimp only
          by_cases hb : 0 ≤ idIndex fwOffset b ∧ (idIndex fwOffset b).toNat < N
          · rw [if_pos hb, ih1 _ hno1]
            have hbj : j ≠ (idIndex fwOffset b).toNat := by
              intro h
              exact hno ⟨b, List.mem_cons_self b ids1, hb.1, hb.2, h.symm⟩
            exact setAt_other _ _ _ _ hbj
          · rw [if_neg hb, ih1 _ hno1]
      rw [hkeep ids _ hlater, ← hj]
      exact setAt_same _ _ _

theorem setActivateLoop_miss (fwOffset : Int) (N v : Nat) :
    ∀ ids active j,
      (∀ id, id ∈ ids → 0 ≤ idIndex fwOffset id → (idIndex fwOffset id).toNat < N →
        (idIndex fwOffset id).toNat ≠ j) →
      setActivateLoop fwOffset N v ids active j = active j := by
  intro ids
  induction ids with
  | nil => intro active j _; rfl
  | cons b ids ih =>
    intro active j hno
    have hno1 : ∀ id, id ∈ ids → 0 ≤ idIndex fwOffset id → (idIndex fwOffset id).toNat < N →
        (idIndex fwOffset id).toNat ≠ j :=
      fun id h => hno id (List.mem_cons_of_mem b h)
    unfold setActivateLoop
    dsimp only
    by_cases hb : 0 ≤ idIndex fwOffset b ∧ (idIndex fwOffset b).toNat < N
    · rw [if_pos hb, ih _ j hno1]
      exact setAt_other _ _ _ _ (fun h => hno b (List.mem_cons_self b ids) hb.1 hb.2 h.symm)
    · rw [if_neg hb, ih _ j hno1]

theorem setActivate_unfold (v : Nat) (ids : List Int) (sh sh1 : SharedData)
    (h : setActivate v ids sh = some sh1) :
    ∃ m1, populate
        { sh.magd with active := setActivateLoop sh.fwOffset sh.magd.N v ids sh.magd.active }
        = some m1 ∧
      sh1 = updateModulo { sh with magd := m1 } := by
  unfold setActivate at h
  dsimp only at h
  split at h
  · cases h
  · rename_i m1 hpop
    cases h
    exact ⟨m1, hpop, rfl⟩

theorem setActivate_effect_spec (v : Nat) (ids : List Int) (sh : SharedData)
    (hM1 : 1 ≤ sh.magd.M) (hM : sh.magd.M ≤ MAX_M) (hN : sh.magd.N ≤ MAX_N)
    (hp : PermInvariant sh.magd) :
    ∃ sh1, setActivate v ids sh = some sh1 ∧
      (∀ id, id ∈ ids → 0 ≤ idIndex sh.fwOffset id → (idIndex sh.fwOffset id).toNat < sh.magd.N →
        sh1.magd.active (idIndex sh.fwOffset id).toNat = v) ∧
      (∀ j, (∀ id, id ∈ ids → 0 ≤ idIndex sh.fwOffset id → (idIndex sh.fwOffset id).toNat < sh.magd.N →
          (idIndex sh.fwOffset id).toNat ≠ j) →
        sh1.magd.active j = sh.magd.active j) ∧
      (sh1.magd.M = sh.magd.M ∧ sh1.magd.N = sh.magd.N ∧
        sh1.magd.permutation = sh.magd.permutation ∧ sh1.ownFwmark = sh.ownFwmark ∧
        sh1.fwOffset = sh.fwOffset) ∧
      populate { sh.magd with active := sh1.magd.active } = some sh1.magd ∧
      sh1 = updateModulo { sh with magd := sh1.magd } := by
  have hp1 : PermInvariant
      { sh.magd with active := setActivateLoop sh.fwOffset sh.magd.N v ids sh.magd.active } :=
    permInvariant_congr sh.magd _ rfl rfl rfl hp
  obtain ⟨m1, hpop, _, _⟩ := populate_lookup_spec
    { sh.magd with active := setActivateLoop sh.fwOffset sh.magd.N v ids sh.magd.active }
    hM1 hM hN hp1
  obtain ⟨fM, fN, fperm, fact⟩ := populate_frame _ _ hpop
  have hact : m1.active = setActivateLoop sh.fwOffset sh.magd.N v ids sh.magd.active := fact
  refine ⟨updateModulo { sh with magd := m1 }, ?_, ?_, ?_, ⟨fM, fN, fperm, rfl, rfl⟩, ?_, rfl⟩
  · unfold setActivate
    dsimp only
    rw [hpop]
  · intro id hmem h0 hlt
    show m1.active _ = v
    rw [hact]
    exact setActivateLoop_hit _ _ _ _ _ _ ⟨id, hmem, h0, hlt, rfl⟩
  · intro j hno
    show m1.active j = _
    rw [hact]
    exact setActivateLoop_miss _ _ _ _ _ _ hno
  · show populate { sh.magd with active := m1.active } = some m1
    rw [hact]
    exact hpop

/-- C15, counterexample: after `create -o 2147483647 19 4` all four backends are active;
`deactivate -2147483648` names one id with `id - fwOffset = -4294967295 < 0`, which by the
claim changes nothing, but the subtraction of `lb.c:200` is done in 32-bit `int`, gives
`i = 1`, and backend 1 is switched off. -/
theorem setActivate_overflow_counterexample :
    (-2147483648 : Int) - 2147483647 < 0 ∧
    idIndex 2147483647 (-2147483648) = 1 ∧
    (cmdCreate (-1) 2147483647 [19, 4] (fun k => k + 1) ⟨0, fun _ => 0⟩).map
      (fun sh => (sh.fwOffset, sh.magd.N, (List.range 4).map sh.magd.active))
      = some (2147483647, 4, [1, 1, 1, 1]) ∧
    ((cmdCreate (-1) 2147483647 [19, 4] (fun k => k + 1) ⟨0, fun _ => 0⟩).bind
      (cmdDeactivate [-2147483648])).map
      (fun sh => (List.range 4).map sh.magd.active) = some [1, 0, 1, 1] := by
  decide

/-- C15, amended: on a state whose table satisfies `1 ≤ M ≤ MAX_M`, `N ≤ MAX_N` and the
permutation invariant, `setActivate` with value `v` (`activate`: 1, `deactivate`: 0) and any
argument list returns; afterwards `active[i] = v` for every `i = idIndex fwOffset id`, the
32-bit `int` result of `id - fwOffset`, with `id` in the list and `0 ≤ i < N`, `active[j]` is
unchanged for every other `j`, `M`, `N`, `permutation`, `ownFwmark` and `fwOffset` are
unchanged, `lookup` is what `populate` computes from the new `active` array and `modulo` what
`updateModulo` computes from it; `i` lies in `[-2^31, 2^31)` and is `id - fwOffset` itself
whenever that difference lies in `[-2^31, 2^31)`. -/
theorem setActivate_effect (v : Nat) (ids : List Int) (sh : SharedData)
    (hM1 : 1 ≤ sh.magd.M) (hM : sh.magd.M ≤ MAX_M) (hN : sh.magd.N ≤ MAX_N)
    (hp : PermInvariant sh.magd) :
    (cmdActivate ids sh = setActivate 1 ids sh ∧
      cmdDeactivate ids sh = setActivate 0 ids sh) ∧
    (∃ sh1, setActivate v ids sh = some sh1 ∧
      (∀ id, id ∈ ids → 0 ≤ idIndex sh.fwOffset id → (idIndex sh.fwOffset id).toNat < sh.magd.N →
        sh1.magd.active (idIndex sh.fwOffset id).toNat = v) ∧
      (∀ j, (∀ id, id ∈ ids → 0 ≤ idIndex sh.fwOffset id → (idIndex sh.fwOffset id).toNat < sh.magd.N →
          (idIndex sh.fwOffset id).toNat ≠ j) →
        sh1.magd.active j = sh.magd.active j) ∧
      (sh1.magd.M = sh.magd.M ∧ sh1.magd.N = sh.magd.N ∧
        sh1.magd.permutation = sh.magd.permutation ∧ sh1.ownFwmark = sh.ownFwmark ∧
        sh1.fwOffset = sh.fwOffset) ∧
      populate { sh.magd with active := sh1.magd.active } = some sh1.magd ∧
      sh1 = updateModulo { sh with magd := sh1.magd }) ∧
    (∀ id : Int, -2 ^ 31 ≤ idIndex sh.fwOffset id ∧ idIndex sh.fwOffset id < 2 ^ 31 ∧
      (-2 ^ 31 ≤ id - sh.fwOffset → id - sh.fwOffset < 2 ^ 31 →
        idIndex sh.fwOffset id = id - sh.fwOffset)) :=
  ⟨⟨rfl, rfl⟩, setActivate_effect_spec v ids sh hM1 hM hN hp,
    fun id => ⟨by unfold idIndex toI32; omega, by unfold idIndex toI32; omega,
      fun h0 h1 => toI32_of_range _ h0 h1⟩⟩

theorem exampleShared_perm : PermInvariant exampleShared.magd :=
  permInvariant_congr initExample exampleShared.magd rfl rfl rfl initExample_perm

/-- Witness of the amended C15: `deactivate 2 9 0` on the paper example with `fwOffset = 1` switches
backend 1 off and ignores the ids 9 and 0. -/
theorem setActivate_effect_witness :
    (1 ≤ exampleShared.magd.M ∧ exampleShared.magd.M ≤ MAX_M ∧
      exampleShared.magd.N ≤ MAX_N ∧ PermInvariant exampleShared.magd) ∧
    ∃ sh1, setActivate 0 [2, 9, 0] exampleShared = some sh1 ∧
      (List.range 3).map sh1.magd.active = [1, 0, 1] ∧
      sh1.magd.active 1 = 0 := by
  obtain ⟨_, ⟨sh1, h1, h2, _⟩, _⟩ := setActivate_effect 0 [2, 9, 0] exampleShared
    (by decide) (by decide) (by decide) exampleShared_perm
  have ha : (setActivate 0 [2, 9, 0] exampleShared).map
      (fun sh => (List.range 3).map sh.magd.active) = some [1, 0, 1] := by decide
  rw [h1] at ha
  simp only [Option.map_some', Option.some.injEq] at ha
  exact ⟨⟨by decide, by decide, by decide, exampleShared_perm⟩, sh1, h1, ha,
    h2 2 (by decide) (by decide) (by decide)⟩

end Lb

namespace Maglev

/-! ## Bounds and cursor advances of `populate` -/

theorem skipTaken_ge (d : MagData) (lookup : Nat → Int) (i : Nat) :
    ∀ fuel nx r, skipTaken d lookup i fuel nx = some r → nx ≤ r := by
  intro fuel
  induction fuel with
  | zero => intro nx r h; cases h
  | succ fuel ih =>
    intro nx r h
    unfold skipTaken at h
    dsimp only at h
    split at h
    · split at h
      · split at h
        · exact Nat.le_of_succ_le (ih _ _ h)
        · cases h; exact le_refl _
      · cases h
    · cases h

theorem skipTakenT_eq (d : MagData) (lookup : Nat → Int) (i : Nat)
    (hlt : ∀ j, j < d.M → d.permutation i j < d.M) :
    ∀ fuel nx t r, skipTaken d lookup i fuel nx = some r → r < d.M →
      skipTakenT d lookup i fuel nx t
        = some (r, { advances := t.advances + (r - nx), inBounds := t.inBounds }) := by
  intro fuel
  induction fuel with
  | zero => intro nx t r h; cases h
  | succ fuel ih =>
    intro nx t r h hr
    have hge := skipTaken_ge d lookup i _ nx r h
    have hnx : nx < d.M := by omega
    have hc : d.permutation i nx < d.M := hlt nx hnx
    unfold skipTaken at h
    unfold skipTakenT
    dsimp only at h ⊢
    split at h
    · rename_i h1
      rw [if_pos h1]
      split at h
      · rename_i h2
        rw [if_pos h2]
        split at h
        · rename_i h3
          rw [if_pos h3, ih _ _ r h hr]
          have hge1 := skipTaken_ge d lookup i _ _ r h
          simp only [hnx, hc, decide_True, Bool.and_true, Option.some.injEq, Prod.mk.injEq,
            true_and, Trace.mk.injEq, and_true]
          omega
        · rename_i h3
          rw [if_neg h3]
          cases h
          simp only [hnx, hc, decide_True, Bool.and_true, Nat.sub_self, Nat.add_zero]
      · cases h
    · cases h

theorem cursorSum_setAt (f : Nat → Nat) (i v : Nat) :
    ∀ N, i < N → cursorSum (setAt f i v) N + f i = cursorSum f N + v := by
  intro N
  induction N with
  | zero => intro h; omega
  | succ N ih =>
    intro hi
    unfold cursorSum at *
    rw [List.range_succ, List.map_append, List.map_append, List.sum_append, List.sum_append]
    simp only [List.map_cons, List.map_nil, List.sum_cons, List.sum_nil, Nat.add_zero]
    by_cases hiN : i = N
    · subst hiN
      have hsame : (List.range i).map (setAt f i v) = (List.range i).map f := by
        apply List.map_congr_left
        intro a ha
        exact setAt_other _ _ _ _ (Nat.ne_of_lt (List.mem_range.mp ha))
      rw [hsame, setAt_same]
      omega
    · have := ih (by omega)
      rw [setAt_other _ _ _ _ (fun h => hiN h.symm)]
      omega

theorem cursorSum_le (f : Nat → Nat) (M : Nat) :
    ∀ N, (∀ a, a < N → f a ≤ M) → cursorSum f N ≤ N * M := by
  intro N
  induction N with
  | zero => intro _; simp [cursorSum]
  | succ N ih =>
    intro h
    have h1 := ih (fun a ha => h a (Nat.lt_succ_of_lt ha))
    have h2 := h N (Nat.lt_succ_self N)
    unfold cursorSum at *
    rw [List.range_succ, List.map_append, List.sum_append, Nat.succ_mul]
    simp only [List.map_cons, List.map_nil, List.sum_cons, List.sum_nil, Nat.add_zero]
    omega

theorem traceInv_turn (d : MagData) (s : PopState) (t : Trace) (i nx : Nat) (hi : i < d.N)
    (hge : s.next i ≤ nx) (hnx : nx < d.M) (hinv : TraceInv d s t) :
    TraceInv d (assign d s i nx)
      { advances := t.advances + (nx - s.next i) + 1, inBounds := t.inBounds } := by
  refine ⟨hinv.ok, ?_, ?_⟩
  · show t.advances + (nx - s.next i) + 1 = cursorSum (setAt s.next i (nx + 1)) d.N
    have := cursorSum_setAt s.next i (nx + 1) d.N hi
    rw [hinv.total]
    omega
  · intro a ha
    show setAt s.next i (nx + 1) a ≤ d.M
    by_cases hai : a = i
    · rw [hai, setAt_same]; omega
    · rw [setAt_other _ _ _ _ hai]; exact hinv.cursor a ha

theorem innerForT_spec (d : MagData) (r : Nat) (hM : d.M ≤ MAX_M) (hp : PermInvariant d) :
    ∀ k i s t, i + k = d.N → PopInv d s i r → s.n < d.M → TraceInv d s t →
      ∃ b s1 t1, innerForT d k i s t = some (b, s1, t1) ∧
        innerFor d k i s = some (b, s1) ∧ TraceInv d s1 t1 := by
  intro k
  induction k with
  | zero =>
    intro i s t _ _ _ htr
    exact ⟨false, s, t, rfl, rfl, htr⟩
  | succ k ih =>
    intro i s t hik hinv hn htr
    have hi : i < d.N := by omega
    by_cases h0 : d.active i = 0
    · obtain ⟨b, s1, t1, h1, h2, h3⟩ :=
        ih (i + 1) s t (by omega) (popInv_skip d s i r hinv h0) hn htr
      refine ⟨b, s1, t1, ?_, ?_, h3⟩
      · unfold innerForT
        simp only [h0, if_true]
        exact h1
      · unfold innerFor
        simp only [h0, if_true]
        exact h2
    · obtain ⟨nx, hnx, hnxM, hinv1⟩ := turn_spec d s i r hM hp hi h0 hinv hn
      have hge := skipTaken_ge d s.lookup i _ _ nx hnx
      have hT := skipTakenT_eq d s.lookup i (fun j hj => perm_lt d hp i j hi hj) _ _ t nx
        hnx hnxM
      have htr1 := traceInv_turn d s t i nx hi hge hnxM htr
      by_cases hdone : (assign d s i nx).n = d.M
      · refine ⟨true, assign d s i nx, _, ?_, ?_, htr1⟩
        · unfold innerForT
          simp only [h0, if_false, hT, hdone, if_true]
        · unfold innerFor
          simp only [h0, if_false, hnx, hdone, if_true]
      · have hn1 : (assign d s i nx).n = s.n + 1 := rfl
        obtain ⟨b, s1, t1, h1, h2, h3⟩ :=
          ih (i + 1) (assign d s i nx) _ (by omega) hinv1 (by omega) htr1
        refine ⟨b, s1, t1, ?_, ?_, h3⟩
        · unfold innerForT
          simp only [h0, if_false, hT, hdone]
          exact h1
        · unfold innerFor
          simp only [h0, if_false, hnx, hdone]
          exact h2

theorem outerLoopT_spec (d : MagData) (hM : d.M ≤ MAX_M) (hp : PermInvariant d)
    (hA : ∃ a, a < d.N ∧ d.active a ≠ 0) :
    ∀ fuel s r t, PopInv d s 0 r → s.n < d.M → d.M ≤ s.n + fuel → TraceInv d s t →
      ∃ s1 t1, outerLoopT d fuel s t = some (s1, t1) ∧ outerLoop d fuel s = some s1 ∧
        TraceInv d s1 t1 := by
  intro fuel
  induction fuel with
  | zero => intro s r t _ h1 h2; omega
  | succ fuel ih =>
    intro s r t hinv hn hfuel htr
    obtain ⟨b, s1, t1, hT, hplain, htr1⟩ :=
      innerForT_spec d r hM hp d.N 0 s t (by omega) hinv hn htr
    obtain ⟨b2, s2, h1, _, h3, _, h5⟩ := innerFor_spec d r hM hp d.N 0 s (by omega) hinv hn
    have hsame : (b2, s2) = (b, s1) := Option.some.inj (h1.symm.trans hplain)
    obtain ⟨hb, hs⟩ := Prod.mk.inj hsame
    subst hb
    subst hs
    obtain ⟨a, ha1, ha2⟩ := hA
    have hprog : s.n < s2.n := h3 ⟨a, Nat.zero_le a, ha1, ha2⟩
    cases b2 with
    | true =>
      refine ⟨s2, t1, ?_, ?_, htr1⟩
      · unfold outerLoopT
        rw [hT]
      · unfold outerLoop
        rw [hplain]
    | false =>
      obtain ⟨h6, h7⟩ := h5 rfl
      have hinv0 : PopInv d s2 0 (r + 1) := by
        refine ⟨h7.range, h7.passed, h7.filled, ?_⟩
        intro a1 ha1 ha1act
        rw [h7.share a1 ha1 ha1act, if_pos ha1, if_neg (Nat.not_lt_zero a1)]
      obtain ⟨s3, t3, h8, h9, h10⟩ := ih s2 (r + 1) t1 hinv0 h6 (by omega) htr1
      refine ⟨s3, t3, ?_, ?_, h10⟩
      · unfold outerLoopT
        rw [hT]
        exact h8
      · unfold outerLoop
        rw [hplain]
        exact h9

theorem popInv_init (d : MagData) :
    PopInv d
      { lookup := fun c => if c < d.M then -1 else d.lookup c, next := fun _ => 0, n := 0 }
      0 0 := by
  refine ⟨?_, ?_, ?_, ?_⟩
  · intro c hc; left; simp [hc]
  · intro a _ j hj; exact absurd hj (Nat.not_lt_zero j)
  · symm
    apply countP_range_zero
    intro c hc
    simp [hc]
  · intro a _ _
    rw [if_neg (Nat.not_lt_zero a)]
    apply countP_range_zero
    intro c hc
    simp [hc]

theorem traceInv_init (d : MagData) (lookup : Nat → Int) :
    TraceInv d { lookup := lookup, next := fun _ => 0, n := 0 }
      { advances := 0, inBounds := true } := by
  refine ⟨rfl, ?_, fun a _ => Nat.zero_le _⟩
  show 0 = cursorSum (fun _ => 0) d.N
  have h := cursorSum_le (fun _ => 0) 0 d.N (fun _ _ => le_refl 0)
  omega

theorem populateT_spec (d : MagData) (hM1 : 1 ≤ d.M) (hM : d.M ≤ MAX_M) (hN : d.N ≤ MAX_N)
    (hp : PermInvariant d) :
    ∃ d1 t, populateT d = some (d1, t) ∧ populate d = some d1 ∧
      t.inBounds = true ∧ t.advances ≤ d.N * d.M := by
  by_cases hA : ∃ a, a < d.N ∧ d.active a ≠ 0
  · have hcnt : countActive d.active d.N ≠ 0 := by
      intro h
      obtain ⟨a, ha1, ha2⟩ := hA
      exact ha2 ((countActive_eq_zero d.active d.N).mp h a ha1)
    obtain ⟨s1, t1, h1, h2, h3⟩ := outerLoopT_spec d hM hp hA d.M _ 0 _ (popInv_init d)
      (by simpa using hM1) (by simp) (traceInv_init d _)
    refine ⟨{ d with lookup := s1.lookup }, t1, ?_, ?_, h3.ok, ?_⟩
    · unfold populateT
      simp only [hM, hN, and_self, if_true, hcnt, if_false, h1, Option.map_some']
    · unfold populate
      simp only [hM, hN, and_self, if_true, hcnt, if_false, h2, Option.map_some']
    · rw [h3.total]
      exact cursorSum_le s1.next d.M d.N h3.cursor
  · have h0 : countActive d.active d.N = 0 := by
      rw [countActive_eq_zero]
      intro a ha
      by_contra hne
      exact hA ⟨a, ha, hne⟩
    refine ⟨{ d with lookup := fun c => if c < d.M then -1 else d.lookup c },
      { advances := 0, inBounds := true }, ?_, ?_, rfl, Nat.zero_le _⟩
    · unfold populateT
      simp only [hM, hN, and_self, if_true, h0]
    · unfold populate
      simp only [hM, hN, and_self, if_true, h0]

/-- C18: for a table with `1 ≤ M ≤ MAX_M`, `N ≤ MAX_N`, permutation rows that are
permutations of `{0..M-1}` (with at least one active backend or none), `populate`
terminates; every
cursor value used to read `permutation[i][next[i]]` and every bucket index used to read or
write `lookup[c]` is below `M`; and the run makes at most `N * M` cursor advances.  The
run with bookkeeping returns the same table as `populate`. -/
theorem populate_bounds (d : MagData) (hM1 : 1 ≤ d.M) (hM : d.M ≤ MAX_M) (hN : d.N ≤ MAX_N)
    (hp : PermInvariant d) :
    ∃ d1 t, populate d = some d1 ∧ populateT d = some (d1, t) ∧
      t.inBounds = true ∧ t.advances ≤ d.N * d.M := by
  obtain ⟨d1, t, h1, h2, h3, h4⟩ := populateT_spec d hM1 hM hN hp
  exact ⟨d1, t, h2, h1, h3, h4⟩

/-- Witness of C18: the paper example (`N * M = 21`) is populated with 12 cursor advances,
all accesses below `M = 7`. -/
theorem populate_bounds_witness :
    (1 ≤ initExample.M ∧ initExample.M ≤ MAX_M ∧ initExample.N ≤ MAX_N ∧
      PermInvariant initExample) ∧
    (∃ d1 t, populate initExample = some d1 ∧ populateT initExample = some (d1, t) ∧
      t.inBounds = true ∧ t.advances ≤ initExample.N * initExample.M) ∧
    (populateT initExample).map (fun r => (r.2.advances, r.2.inBounds)) = some (12, true) :=
  ⟨⟨by decide, by decide, by decide, initExample_perm⟩,
    populate_bounds initExample (by decide) (by decide) (by decide) initExample_perm,
    by decide⟩

end Maglev

namespace Maglev

/-! ## `populate` reads only `M`, `N`, the permutation rows and the active flags -/

theorem skipTakenT_mono (d : MagData) (lookup : Nat → Int) (i : Nat) :
    ∀ fuel nx t r t1, skipTakenT d lookup i fuel nx t = some (r, t1) →
      t1.inBounds = true → t.inBounds = true ∧ r < d.M ∧ d.permutation i r < d.M := by
  intro fuel
  induction fuel with
  | zero => intro nx t r t1 h; cases h
  | succ fuel ih =>
    intro nx t r t1 h hok
    unfold skipTakenT at h
    dsimp only at h
    split at h
    · split at h
      · split at h
        · obtain ⟨h1, h2, h3⟩ := ih _ _ _ _ h hok
          simp only [Bool.and_eq_true, decide_eq_true_eq] at h1
          exact ⟨h1.1.1, h2, h3⟩
        · simp only [Option.some.injEq, Prod.mk.injEq] at h
          obtain ⟨hr, ht⟩ := h
          subst hr
          rw [← ht] at hok
          simp only [Bool.and_eq_true, decide_eq_true_eq] at hok
          exact ⟨hok.1.1, hok.1.2, hok.2⟩
      · cases h
    · cases h

theorem skipTakenT_sim (d1 d2 : MagData) (l1 l2 : Nat → Int) (i : Nat)
    (hperm : ∀ j, j < d1.M → d1.permutation i j = d2.permutation i j)
    (hl : ∀ c, c < d1.M → l1 c = l2 c) :
    ∀ fuel nx t r t1, skipTakenT d1 l1 i fuel nx t = some (r, t1) → t1.inBounds = true →
      skipTaken d2 l2 i fuel nx = some r := by
  intro fuel
  induction fuel with
  | zero => intro nx t r t1 h; cases h
  | succ fuel ih =>
    intro nx t r t1 h hok
    unfold skipTakenT at h
    dsimp only at h
    unfold skipTaken
    dsimp only
    split at h
    · rename_i h1
      rw [if_pos h1]
      split at h
      · rename_i h2
        split at h
        · rename_i h3
          obtain ⟨hin, _, _⟩ := skipTakenT_mono d1 l1 i _ _ _ _ _ h hok
          simp only [Bool.and_eq_true, decide_eq_true_eq] at hin
          rw [← hperm nx hin.1.2, if_pos h2, ← hl _ hin.2, if_pos h3]
          exact ih _ _ _ _ h hok
        · rename_i h3
          simp only [Option.some.injEq, Prod.mk.injEq] at h
          obtain ⟨hr, ht⟩ := h
          rw [← ht] at hok
          simp only [Bool.and_eq_true, decide_eq_true_eq] at hok
          rw [← hperm nx hok.1.2, if_pos h2, ← hl _ hok.2, if_neg h3, hr]
      · cases h
    · cases h

theorem innerForT_mono (d : MagData) :
    ∀ k i s t b s1 t1, innerForT d k i s t = some (b, s1, t1) → t1.inBounds = true →
      t.inBounds = true := by
  intro k
  induction k with
  | zero =>
    intro i s t b s1 t1 h hok
    unfold innerForT at h
    simp only [Option.some.injEq, Prod.mk.injEq] at h
    rw [h.2.2]; exact hok
  | succ k ih =>
    intro i s t b s1 t1 h hok
    unfold innerForT at h
    split at h
    · exact ih _ _ _ _ _ _ h hok
    · split at h
      · cases h
      · rename_i nx t2 hskip
        dsimp only at h
        split at h
        · simp only [Option.some.injEq, Prod.mk.injEq] at h
          rw [← h.2.2] at hok
          exact (skipTakenT_mono d s.lookup i _ _ _ _ _ hskip hok).1
        · have := ih _ _ _ _ _ _ h hok
          exact (skipTakenT_mono d s.lookup i _ _ _ _ _ hskip this).1

theorem sameState_assign (d1 d2 : MagData) (hag : Agree d1 d2) (s1 s2 : PopState)
    (i nx : Nat) (hi : i < d1.N) (hnx : nx < d1.M) (hs : SameState d1.M d1.N s1 s2) :
    SameState d1.M d1.N (assign d1 s1 i nx) (assign d2 s2 i nx) := by
  refine ⟨?_, ?_, ?_⟩
  · intro c hc
    show setAt s1.lookup (d1.permutation i nx) (i : Int) c
      = setAt s2.lookup (d2.permutation i nx) (i : Int) c
    rw [← hag.eqPerm i hi nx hnx]
    unfold setAt
    split
    · rfl
    · exact hs.eqLookup c hc
  · intro a ha
    show setAt s1.next i (nx + 1) a = setAt s2.next i (nx + 1) a
    unfold setAt
    split
    · rfl
    · exact hs.eqNext a ha
  · show s1.n + 1 = s2.n + 1
    rw [hs.eqn]

theorem innerForT_sim (d1 d2 : MagData) (hag : Agree d1 d2) :
    ∀ k i s1 s2 t b r1 t1, i + k = d1.N → SameState d1.M d1.N s1 s2 →
      innerForT d1 k i s1 t = some (b, r1, t1) → t1.inBounds = true →
      ∃ r2, innerFor d2 k i s2 = some (b, r2) ∧ SameState d1.M d1.N r1 r2 := by
  intro k
  induction k with
  | zero =>
    intro i s1 s2 t b r1 t1 _ hs h _
    unfold innerForT at h
    simp only [Option.some.injEq, Prod.mk.injEq] at h
    obtain ⟨hb, hr, _⟩ := h
    subst hb
    subst hr
    exact ⟨s2, rfl, hs⟩
  | succ k ih =>
    intro i s1 s2 t b r1 t1 hik hs h hok
    have hi : i < d1.N := by omega
    unfold innerForT at h
    unfold innerFor
    split at h
    · rename_i h0
      rw [if_pos ((hag.eqActive i hi).mp h0)]
      exact ih _ _ _ _ _ _ _ (by omega) hs h hok
    · rename_i h0
      rw [if_neg (fun h2 => h0 ((hag.eqActive i hi).mpr h2))]
      split at h
      · cases h
      · rename_i nx t2 hskip
        dsimp only at h
        have hok2 : t2.inBounds = true := by
          split at h
          · simp only [Option.some.injEq, Prod.mk.injEq] at h
            rw [← h.2.2] at hok
            exact hok
          · exact innerForT_mono d1 _ _ _
              { advances := t2.advances + 1, inBounds := t2.inBounds } _ _ _ h hok
        obtain ⟨_, hnxM, _⟩ := skipTakenT_mono d1 s1.lookup i _ _ _ _ _ hskip hok2
        have hplain : skipTaken d2 s2.lookup i MAX_M (s2.next i) = some nx := by
          rw [← hs.eqNext i hi]
          exact skipTakenT_sim d1 d2 s1.lookup s2.lookup i (hag.eqPerm i hi) hs.eqLookup
            _ _ _ _ _ hskip hok2
        have hs1 := sameState_assign d1 d2 hag s1 s2 i nx hi hnxM hs
        have hn : (assign d2 s2 i nx).n = (assign d1 s1 i nx).n := hs1.eqn.symm
        rw [hplain]
        dsimp only
        rw [hn, ← hag.eqM]
        split at h
        · rename_i hdone
          rw [if_pos hdone]
          simp only [Option.some.injEq, Prod.mk.injEq] at h
          obtain ⟨hb, hr, _⟩ := h
          subst hb
          subst hr
          exact ⟨_, rfl, hs1⟩
        · rename_i hdone
          rw [if_neg hdone]
          exact ih _ _ _ _ _ _ _ (by omega) hs1 h hok

theorem outerLoopT_mono (d : MagData) :
    ∀ fuel s t s1 t1, outerLoopT d fuel s t = some (s1, t1) → t1.inBounds = true →
      t.inBounds = true := by
  intro fuel
  induction fuel with
  | zero => intro s t s1 t1 h; cases h
  | succ fuel ih =>
    intro s t s1 t1 h hok
    unfold outerLoopT at h
    split at h
    · cases h
    · rename_i s2 t2 hin
      simp only [Option.some.injEq, Prod.mk.injEq] at h
      rw [← h.2] at hok
      exact innerForT_mono d _ _ _ _ _ _ _ hin hok
    · rename_i s2 t2 hin
      exact innerForT_mono d _ _ _ _ _ _ _ hin (ih _ _ _ _ h hok)

theorem outerLoopT_sim (d1 d2 : MagData) (hag : Agree d1 d2) :
    ∀ fuel s1 s2 t r1 t1, SameState d1.M d1.N s1 s2 →
      outerLoopT d1 fuel s1 t = some (r1, t1) → t1.inBounds = true →
      ∃ r2, outerLoop d2 fuel s2 = some r2 ∧ SameState d1.M d1.N r1 r2 := by
  intro fuel
  induction fuel with
  | zero => intro s1 s2 t r1 t1 _ h; cases h
  | succ fuel ih =>
    intro s1 s2 t r1 t1 hs h hok
    unfold outerLoopT at h
    unfold outerLoop
    rw [← hag.eqN]
    split at h
    · cases h
    · rename_i s3 t3 hin
      simp only [Option.some.injEq, Prod.mk.injEq] at h
      obtain ⟨hr, ht⟩ := h
      subst hr
      rw [← ht] at hok
      obtain ⟨r2, h2, hs2⟩ := innerForT_sim d1 d2 hag _ _ _ _ _ _ _ _ (by omega) hs hin hok
      rw [h2]
      exact ⟨r2, rfl, hs2⟩
    · rename_i s3 t3 hin
      have hok3 := outerLoopT_mono d1 _ _ _ _ _ h hok
      obtain ⟨r2, h2, hs2⟩ := innerForT_sim d1 d2 hag _ _ _ _ _ _ _ _ (by omega) hs hin hok3
      rw [h2]
      exact ih _ _ _ _ _ hs2 h hok

theorem populate_agree (d1 d2 : MagData) (hM1 : 1 ≤ d1.M) (hM : d1.M ≤ MAX_M)
    (hN : d1.N ≤ MAX_N) (hp : PermInvariant d1) (hag : Agree d1 d2) :
    ∃ r1 r2, populate d1 = some r1 ∧ populate d2 = some r2 ∧
      ∀ c, c < d1.M → r1.lookup c = r2.lookup c := by
  have hM2 : d2.M ≤ MAX_M := by rw [← hag.eqM]; exact hM
  have hN2 : d2.N ≤ MAX_N := by rw [← hag.eqN]; exact hN
  by_cases hA : ∃ a, a < d1.N ∧ d1.active a ≠ 0
  · have hcnt1 : countActive d1.active d1.N ≠ 0 := by
      intro h
      obtain ⟨a, ha1, ha2⟩ := hA
      exact ha2 ((countActive_eq_zero d1.active d1.N).mp h a ha1)
    have hcnt2 : countActive d2.active d2.N ≠ 0 := by
      intro h
      obtain ⟨a, ha1, ha2⟩ := hA
      exact ha2 ((hag.eqActive a ha1).mpr
        ((countActive_eq_zero d2.active d2.N).mp h a (by rw [← hag.eqN]; exact ha1)))
    obtain ⟨s1, t1, h1, h2, h3⟩ := outerLoopT_spec d1 hM hp hA d1.M _ 0 _ (popInv_init d1)
      (by simpa using hM1) (by simp) (traceInv_init d1 _)
    have hinit : SameState d1.M d1.N
        { lookup := fun c => if c < d1.M then -1 else d1.lookup c, next := fun _ => 0, n := 0 }
        { lookup := fun c => if c < d2.M then -1 else d2.lookup c, next := fun _ => 0, n := 0 } := by
      refine ⟨?_, fun _ _ => rfl, rfl⟩
      intro c hc
      have hc2 : c < d2.M := by rw [← hag.eqM]; exact hc
      simp only [hc, hc2, if_true]
    obtain ⟨s2, h4, h5⟩ := outerLoopT_sim d1 d2 hag d1.M _ _ _ _ _ hinit h1 h3.ok
    refine ⟨{ d1 with lookup := s1.lookup }, { d2 with lookup := s2.lookup }, ?_, ?_,
      h5.eqLookup⟩
    · unfold populate
      simp only [hM, hN, and_self, if_true, hcnt1, if_false, h2, Option.map_some']
    · rw [hag.eqM] at h4
      unfold populate
      simp only [hM2, hN2, and_self, if_true, hcnt2, if_false, h4, Option.map_some']
  · have h01 : ∀ a, a < d1.N → d1.active a = 0 := by
      intro a ha
      by_contra hne
      exact hA ⟨a, ha, hne⟩
    have h02 : ∀ a, a < d2.N → d2.active a = 0 := by
      intro a ha
      have ha1 : a < d1.N := by rw [hag.eqN]; exact ha
      exact (hag.eqActive a ha1).mp (h01 a ha1)
    refine ⟨_, _, populate_inactive d1 hM hN h01, populate_inactive d2 hM2 hN2 h02, ?_⟩
    intro c hc
    have hc2 : c < d2.M := by rw [← hag.eqM]; exact hc
    simp only [hc, hc2, if_true]

theorem populate_idem (d d1 : MagData) (hM1 : 1 ≤ d.M) (hM : d.M ≤ MAX_M)
    (hN : d.N ≤ MAX_N) (hp : PermInvariant d) (h : populate d = some d1) :
    ∃ d2, populate d1 = some d2 ∧ ∀ c, c < d.M → d2.lookup c = d1.lookup c := by
  obtain ⟨fM, fN, fperm, fact⟩ := populate_frame d d1 h
  have hag : Agree d d1 :=
    ⟨fM.symm, fN.symm, fun i _ j _ => by rw [fperm], fun i _ => by rw [fact]⟩
  obtain ⟨r1, r2, h1, h2, h3⟩ := populate_agree d d1 hM1 hM hN hp hag
  have hr : r1 = d1 := Option.some.inj (h1.symm.trans h)
  subst hr
  exact ⟨r2, h2, fun c hc => (h3 c hc).symm⟩

end Maglev

namespace Lb

open Maglev

/-! ## States reached from `create` -/

theorem activeList_congr (a1 a2 : Nat → Nat) (n : Nat)
    (h : ∀ i, i < n → (a1 i = 0 ↔ a2 i = 0)) : activeList a1 n = activeList a2 n := by
  unfold activeList
  apply List.filter_congr
  intro i hi
  have := h i (List.mem_range.mp hi)
  by_cases h1 : a1 i = 0
  · simp [h1, this.mp h1]
  · have h2 : ¬ a2 i = 0 := fun h2 => h1 (this.mpr h2)
    simp [h1, h2]

theorem setActivate_populated (v : Nat) (ids : List Int) (sh sh1 : SharedData)
    (hinv : StateInv sh) (h : setActivate v ids sh = some sh1) : Populated sh1 := by
  obtain ⟨m1, hpop, hsh1⟩ := setActivate_unfold v ids sh sh1 h
  have hp1 : PermInvariant
      { sh.magd with active := setActivateLoop sh.fwOffset sh.magd.N v ids sh.magd.active } :=
    permInvariant_congr sh.magd _ rfl rfl rfl hinv.perm
  obtain ⟨d2, h2, h3⟩ := populate_idem
    { sh.magd with active := setActivateLoop sh.fwOffset sh.magd.N v ids sh.magd.active }
    m1 hinv.boundM1 hinv.boundM hinv.boundN hp1 hpop
  obtain ⟨fM, _, _, _⟩ := populate_frame _ _ hpop
  rw [hsh1]
  exact ⟨d2, h2, fun c hc => h3 c (by rw [← fM]; exact hc)⟩

theorem createN_le (a : Option Int) : createN a ≤ MAX_N := by
  cases a with
  | none => decide
  | some z =>
    simp only [createN]
    have h100 : MAX_N = 100 := rfl
    split <;> split <;> omega

theorem cmdCreate_populated (i fwOffset : Int) (args : List Int) (rand : Nat → Nat)
    (stack : ModuloAux) (sh : SharedData)
    (h : cmdCreate i fwOffset args rand stack = some sh) : StateInv sh ∧ Populated sh := by
  obtain ⟨sh0, h0, hinv0⟩ := cmdCreate_total i fwOffset args rand stack
  have hsh : sh0 = sh := Option.some.inj (h0.symm.trans h)
  subst hsh
  refine ⟨hinv0, ?_⟩
  obtain ⟨hprime, h19, hM⟩ := createM_prime args.head?
  have hp := initMagData_perm (createM args.head?) (createN args.tail.head?) rand
    (fun k => if k < 4 then 1 else 0) hprime hM
  unfold cmdCreate at h
  dsimp only at h
  split at h
  · cases h
  · rename_i m1 hpop
    cases h
    have hpop1 : populate { initMagData (createM args.head?) (createN args.tail.head?) rand with
        active := fun k => if k < 4 then 1 else 0 } = some m1 := hpop
    obtain ⟨d2, h2, h3⟩ := populate_idem _ m1 (by show 1 ≤ createM args.head?; omega) hM
      (createN_le _) hp hpop1
    obtain ⟨fM, _, _, _⟩ := populate_frame _ _ hpop1
    exact ⟨d2, h2, fun c hc => h3 c (by rw [← fM]; exact hc)⟩

theorem runCommands_reach (cmds : List ControlCmd) :
    ∀ sh sh1, StateInv sh → Populated sh → runCommands cmds sh = some sh1 →
      StateInv sh1 ∧ Populated sh1 ∧ sh1.fwOffset = sh.fwOffset ∧
        sh1.magd.N = sh.magd.N ∧ sh1.magd.M = sh.magd.M := by
  induction cmds with
  | nil =>
    intro sh sh1 hinv hpop h
    cases h
    exact ⟨hinv, hpop, rfl, rfl, rfl⟩
  | cons c cs ih =>
    intro sh sh1 hinv hpop h
    unfold runCommands at h
    have hstep : ∃ v ids, runCommand c sh = setActivate v ids sh := by
      cases c with
      | activate ids => exact ⟨1, ids, rfl⟩
      | deactivate ids => exact ⟨0, ids, rfl⟩
    obtain ⟨v, ids, hc⟩ := hstep
    obtain ⟨sh2, h2, hinv2⟩ := setActivate_total v ids sh hinv
    rw [hc, h2, Option.some_bind] at h
    obtain ⟨m1, hm1, hsh2⟩ := setActivate_unfold v ids sh sh2 h2
    obtain ⟨fM, fN, _, _⟩ := populate_frame _ _ hm1
    obtain ⟨h3, h4, h5, h6, h7⟩ := ih sh2 sh1 hinv2 (setActivate_populated v ids sh sh2 hinv h2) h
    refine ⟨h3, h4, ?_, ?_, ?_⟩
    · rw [h5, hsh2]; rfl
    · rw [h6, hsh2]; exact fN
    · rw [h7, hsh2]; exact fM

theorem roundtrip_spec (v1 v2 : Nat) (x : Int) (sh : SharedData) (hinv : StateInv sh)
    (hpop : Populated sh) (h0 : 0 ≤ x - sh.fwOffset)
    (hlt : (x - sh.fwOffset).toNat < sh.magd.N)
    (hv : v2 = 0 ↔ sh.magd.active (x - sh.fwOffset).toNat = 0) :
    ∃ sh1 sh2, setActivate v1 [x] sh = some sh1 ∧ setActivate v2 [x] sh1 = some sh2 ∧
      sh1.magd.active (x - sh.fwOffset).toNat = v1 ∧
      (∀ c, c < sh.magd.M → sh2.magd.lookup c = sh.magd.lookup c) ∧
      sh2.modulo.nActive = sh.modulo.nActive ∧
      (List.range sh.modulo.nActive).map sh2.modulo.lookup
        = (List.range sh.modulo.nActive).map sh.modulo.lookup := by
  obtain ⟨sh1, h1, hhit1, hmiss1, ⟨fM1, fN1, fperm1, _, foff1⟩, _, _⟩ :=
    setActivate_effect_spec v1 [x] sh hinv.boundM1 hinv.boundM hinv.boundN hinv.perm
  obtain ⟨sh1', h1', hinv1⟩ := setActivate_total v1 [x] sh hinv
  have hsame : sh1' = sh1 := Option.some.inj (h1'.symm.trans h1)
  subst hsame
  obtain ⟨sh2, h2, hhit2, hmiss2, ⟨fM2, fN2, fperm2, _, _⟩, hpop2, _⟩ :=
    setActivate_effect_spec v2 [x] sh1' hinv1.boundM1 hinv1.boundM hinv1.boundN hinv1.perm
  obtain ⟨sh2', h2', hinv2⟩ := setActivate_total v2 [x] sh1' hinv1
  have hsame2 : sh2' = sh2 := Option.some.inj (h2'.symm.trans h2)
  subst hsame2
  have hidx : idIndex sh.fwOffset x = x - sh.fwOffset :=
    idIndex_small sh.fwOffset x sh.magd.N h0 hlt hinv.boundN
  have hx1 : sh1'.magd.active (x - sh.fwOffset).toNat = v1 := by
    have := hhit1 x (List.mem_singleton.mpr rfl) (by rw [hidx]; exact h0)
      (by rw [hidx]; exact hlt)
    rw [hidx] at this
    exact this
  have hpattern : ∀ j, j < sh.magd.N → (sh2'.magd.active j = 0 ↔ sh.magd.active j = 0) := by
    intro j _
    by_cases hj : j = (x - sh.fwOffset).toNat
    · have hx2 : sh2'.magd.active (x - sh.fwOffset).toNat = v2 := by
        have := hhit2 x (List.mem_singleton.mpr rfl) (by rw [foff1, hidx]; exact h0)
          (by rw [foff1, fN1, hidx]; exact hlt)
        rw [foff1, hidx] at this
        exact this
      rw [hj, hx2]
      exact hv
    · have e2 : sh2'.magd.active j = sh1'.magd.active j := by
        apply hmiss2
        intro id hid _ _ hne
        rw [List.mem_singleton.mp hid, foff1, hidx] at hne
        exact hj hne.symm
      have e1 : sh1'.magd.active j = sh.magd.active j := by
        apply hmiss1
        intro id hid _ _ hne
        rw [List.mem_singleton.mp hid, hidx] at hne
        exact hj hne.symm
      rw [e2, e1]
  have hag : Agree { sh1'.magd with active := sh2'.magd.active } sh.magd :=
    ⟨fM1, fN1, fun i _ j _ => by show sh1'.magd.permutation i j = _; rw [fperm1],
      fun i hi => hpattern i (by rw [← fN1]; exact hi)⟩
  obtain ⟨r1, r2, hr1, hr2, hr3⟩ := populate_agree
    { sh1'.magd with active := sh2'.magd.active } sh.magd hinv1.boundM1 hinv1.boundM
    hinv1.boundN (permInvariant_congr sh1'.magd _ rfl rfl rfl hinv1.perm) hag
  have e1 : r1 = sh2'.magd := Option.some.inj (hr1.symm.trans hpop2)
  obtain ⟨m, hm1, hm2⟩ := hpop
  have e2 : r2 = m := Option.some.inj (hr2.symm.trans hm1)
  subst e1
  subst e2
  have hlist : activeList sh2'.magd.active sh2'.magd.N
      = activeList sh.magd.active sh.magd.N := by
    rw [fN2, fN1]
    exact activeList_congr _ _ _ hpattern
  have hn : sh2'.modulo.nActive = sh.modulo.nActive := by
    rw [hinv2.modulo.1, hinv.modulo.1, hlist]
  refine ⟨sh1', sh2', h1, h2, hx1, ?_, hn, ?_⟩
  · intro c hc
    rw [← hm2 c hc]
    exact hr3 c (by show c < sh1'.magd.M; rw [fM1]; exact hc)
  · have h3 := hinv2.modulo.2
    rw [hn, hlist, ← hinv.modulo.2] at h3
    exact h3

theorem cmdCreate_frame (i fwOffset : Int) (args : List Int) (rand : Nat → Nat)
    (stack : ModuloAux) (sh : SharedData)
    (h : cmdCreate i fwOffset args rand stack = some sh) :
    sh.ownFwmark = i ∧ sh.fwOffset = fwOffset ∧ sh.magd.M = createM args.head? ∧
      sh.magd.N = createN args.tail.head? := by
  unfold cmdCreate at h
  dsimp only at h
  split at h
  · cases h
  · rename_i m1 hpop
    cases h
    obtain ⟨fM, fN, _, _⟩ := populate_frame _ _ hpop
    exact ⟨rfl, rfl, fM, fN⟩

theorem roundtrip_run (v1 v2 : Nat) (c1 c2 : ControlCmd) (x : Int) (sh : SharedData)
    (hc1 : ∀ s, runCommand c1 s = setActivate v1 [x] s)
    (hc2 : ∀ s, runCommand c2 s = setActivate v2 [x] s)
    (hinv : StateInv sh) (hpop : Populated sh) (h0 : 0 ≤ x - sh.fwOffset)
    (hlt : (x - sh.fwOffset).toNat < sh.magd.N)
    (hv : v2 = 0 ↔ sh.magd.active (x - sh.fwOffset).toNat = 0) :
    ∃ sh2, runCommands [c1, c2] sh = some sh2 ∧ Restored sh sh2 := by
  obtain ⟨sh1, sh2, e1, e2, _, e4, e5, e6⟩ := roundtrip_spec v1 v2 x sh hinv hpop h0 hlt hv
  refine ⟨sh2, ?_, e4, e5, e6⟩
  show (runCommand c1 sh).bind (fun s => (runCommand c2 s).bind some) = some sh2
  rw [hc1, e1, Option.some_bind, hc2, e2]
  rfl

/-- C19: (1) two tables that agree on `M`, `N`, the rows `permutation[i][0..M)`, `i < N`,
and `active[0..N)` get the same `lookup[0..M)` from `populate`, whatever their previous
`lookup` contents; (2) `populate` is idempotent; (3) in every state reached from `create`
by `activate` / `deactivate` commands, deactivating an active backend and activating it
again, or activating an inactive backend and deactivating it again, restores `lookup[0..M)`,
`modulo.nActive` and `modulo.lookup[0..nActive)`.  The tables satisfy `1 ≤ M ≤ MAX_M`,
`N ≤ MAX_N` and the permutation invariant, so that `populate` returns. -/
theorem populate_depends_only :
    (∀ d1 d2 : MagData, 1 ≤ d1.M → d1.M ≤ MAX_M → d1.N ≤ MAX_N → PermInvariant d1 →
      d2.M = d1.M → d2.N = d1.N →
      (∀ i, i < d1.N → ∀ j, j < d1.M → d2.permutation i j = d1.permutation i j) →
      (∀ i, i < d1.N → d2.active i = d1.active i) →
      ∃ r1 r2, populate d1 = some r1 ∧ populate d2 = some r2 ∧
        ∀ c, c < d1.M → r1.lookup c = r2.lookup c) ∧
    (∀ d1 : MagData, 1 ≤ d1.M → d1.M ≤ MAX_M → d1.N ≤ MAX_N → PermInvariant d1 →
      ∃ r1 r2, populate d1 = some r1 ∧ populate r1 = some r2 ∧
        ∀ c, c < d1.M → r2.lookup c = r1.lookup c) ∧
    (∀ (i fwOffset : Int) (args : List Int) (rand : Nat → Nat) (stack : ModuloAux)
        (cmds : List ControlCmd) (x : Int),
      0 ≤ x - fwOffset → (x - fwOffset).toNat < createN args.tail.head? →
      ∃ sh0 sh, cmdCreate i fwOffset args rand stack = some sh0 ∧
        runCommands cmds sh0 = some sh ∧
        (sh.magd.active (x - fwOffset).toNat ≠ 0 →
          ∃ sh2, runCommands [ControlCmd.deactivate [x], ControlCmd.activate [x]] sh
              = some sh2 ∧ Restored sh sh2) ∧
        (sh.magd.active (x - fwOffset).toNat = 0 →
          ∃ sh2, runCommands [ControlCmd.activate [x], ControlCmd.deactivate [x]] sh
              = some sh2 ∧ Restored sh sh2)) := by
  refine ⟨?_, ?_, ?_⟩
  · intro d1 d2 hM1 hM hN hp eM eN eP eA
    exact populate_agree d1 d2 hM1 hM hN hp
      ⟨eM.symm, eN.symm, fun i hi j hj => (eP i hi j hj).symm, fun i hi => by rw [eA i hi]⟩
  · intro d1 hM1 hM hN hp
    obtain ⟨r1, h1, _, _⟩ := populate_lookup_spec d1 hM1 hM hN hp
    obtain ⟨r2, h2, h3⟩ := populate_idem d1 r1 hM1 hM hN hp h1
    exact ⟨r1, r2, h1, h2, h3⟩
  · intro i fwOffset args rand stack cmds x hx0 hxN
    obtain ⟨sh0, h0, hinv0⟩ := cmdCreate_total i fwOffset args rand stack
    obtain ⟨sh, h1, _⟩ := runCommands_total cmds sh0 hinv0
    obtain ⟨_, hpop0⟩ := cmdCreate_populated i fwOffset args rand stack sh0 h0
    obtain ⟨hinv, hpop, foff, fN, _⟩ := runCommands_reach cmds sh0 sh hinv0 hpop0 h1
    obtain ⟨_, hoff0, _, hN0⟩ := cmdCreate_frame i fwOffset args rand stack sh0 h0
    have hoff : sh.fwOffset = fwOffset := by rw [foff, hoff0]
    have hNeq : sh.magd.N = createN args.tail.head? := by rw [fN, hN0]
    rw [← hoff] at hx0
    rw [← hoff, ← hNeq] at hxN
    refine ⟨sh0, sh, h0, h1, ?_, ?_⟩
    · intro hact
      rw [← hoff] at hact
      exact roundtrip_run 0 1 _ _ x sh (fun _ => rfl) (fun _ => rfl) hinv hpop hx0 hxN
        ⟨fun h => absurd h (by decide), fun h => absurd h hact⟩
    · intro hact
      rw [← hoff] at hact
      exact roundtrip_run 1 0 _ _ x sh (fun _ => rfl) (fun _ => rfl) hinv hpop hx0 hxN
        ⟨fun _ => hact, fun _ => rfl⟩

/-- Witness of C19: the paper example with different previous `lookup` contents, and
`create 19 5` followed by `deactivate 2`, `activate 2` (backend 1, `fwOffset = 1`). -/
theorem populate_depends_only_witness :
    (∃ r1 r2, populate initExample = some r1 ∧
      populate { initExample with lookup := fun _ => 5 } = some r2 ∧
      ∀ c, c < initExample.M → r1.lookup c = r2.lookup c) ∧
    (∃ r1 r2, populate initExample = some r1 ∧ populate r1 = some r2 ∧
      ∀ c, c < initExample.M → r2.lookup c = r1.lookup c) ∧
    (∃ sh0 sh sh2, cmdCreate (-1) 1 [19, 5] (fun k => k + 1) ⟨0, fun _ => 0⟩ = some sh0 ∧
      runCommands [] sh0 = some sh ∧
      runCommands [ControlCmd.deactivate [2], ControlCmd.activate [2]] sh = some sh2 ∧
      Restored sh sh2) := by
  refine ⟨?_, ?_, ?_⟩
  · exact populate_depends_only.1 initExample { initExample with lookup := fun _ => 5 }
      (by decide) (by decide) (by decide) initExample_perm rfl rfl
      (fun _ _ _ _ => rfl) (fun _ _ => rfl)
  · exact populate_depends_only.2.1 initExample (by decide) (by decide) (by decide)
      initExample_perm
  · obtain ⟨sh0, sh, h0, h1, h2, _⟩ :=
      populate_depends_only.2.2 (-1) 1 [19, 5] (fun k => k + 1) ⟨0, fun _ => 0⟩ [] 2
        (by decide) (by decide)
    have ha : ((cmdCreate (-1) 1 [19, 5] (fun k => k + 1) ⟨0, fun _ => 0⟩).bind
        (runCommands [])).map (fun s => s.magd.active 1) = some 1 := by decide
    rw [h0, Option.some_bind, h1] at ha
    simp only [Option.map_some', Option.some.injEq] at ha
    have hact : sh.magd.active ((2 : Int) - 1).toNat ≠ 0 := by
      show sh.magd.active 1 ≠ 0
      rw [ha]
      decide
    obtain ⟨sh2, h3, h4⟩ := h2 hact
    exact ⟨sh0, sh, sh2, h0, h1, h3, h4⟩

/-! ## Marks and command ids -/

theorem runCommands_append (a b : List ControlCmd) :
    ∀ sh, runCommands (a ++ b) sh = (runCommands a sh).bind (runCommands b) := by
  induction a with
  | nil => intro sh; rfl
  | cons c cs ih =>
    intro sh
    show (runCommand c sh).bind (runCommands (cs ++ b))
      = ((runCommand c sh).bind (runCommands cs)).bind (runCommands b)
    cases runCommand c sh with
    | none => rfl
    | some s1 => simp only [Option.some_bind]; exact ih s1

theorem runCommands_keep (x : Int) (cmds : List ControlCmd) :
    ∀ sh sh1, StateInv sh → runCommands cmds sh = some sh1 → 0 ≤ x - sh.fwOffset →
      (∀ c, c ∈ cmds → ∀ y, y ∈ cmdIds c → idIndex sh.fwOffset y ≠ x - sh.fwOffset) →
      sh1.magd.active (x - sh.fwOffset).toNat = sh.magd.active (x - sh.fwOffset).toNat := by
  induction cmds with
  | nil => intro sh sh1 _ h _ _; cases h; rfl
  | cons c cs ih =>
    intro sh sh1 hinv h hx0 hno
    unfold runCommands at h
    have hstep : ∃ v, runCommand c sh = setActivate v (cmdIds c) sh := by
      cases c with
      | activate ids => exact ⟨1, rfl⟩
      | deactivate ids => exact ⟨0, rfl⟩
    obtain ⟨v, hc⟩ := hstep
    obtain ⟨sh2, h2, _, hmiss, ⟨_, _, _, _, foff⟩, _, _⟩ :=
      setActivate_effect_spec v (cmdIds c) sh hinv.boundM1 hinv.boundM hinv.boundN hinv.perm
    obtain ⟨sh2', h2', hinv2⟩ := setActivate_total v (cmdIds c) sh hinv
    have hsame : sh2' = sh2 := Option.some.inj (h2'.symm.trans h2)
    subst hsame
    rw [hc, h2, Option.some_bind] at h
    have hrest := ih sh2' sh1 hinv2 h (by rw [foff]; exact hx0)
      (fun c1 hc1 y hy => by rw [foff]; exact hno c1 (List.mem_cons_of_mem c hc1) y hy)
    rw [foff] at hrest
    rw [hrest]
    apply hmiss
    intro id hid hid0 _ heq
    have hxid : idIndex sh.fwOffset id = x - sh.fwOffset := by
      have h1 := Int.toNat_of_nonneg hid0
      have h3 := Int.toNat_of_nonneg hx0
      rw [heq] at h1
      omega
    exact hno c (List.mem_cons_self c cs) id hid hxid

theorem reach_marks (sh : SharedData) (hinv : StateInv sh) (hpop : Populated sh)
    (hA : ∃ a, a < sh.magd.N ∧ sh.magd.active a ≠ 0) (hash : Nat) :
    ActiveMark sh (get_maglev_mark sh hash) ∧ ActiveMark sh (get_modulo_mark sh hash) := by
  constructor
  · obtain ⟨m, hm1, hm2⟩ := hpop
    obtain ⟨d1, hd1, hsome, _⟩ :=
      populate_lookup_spec sh.magd hinv.boundM1 hinv.boundM hinv.boundN hinv.perm
    have hmd : d1 = m := Option.some.inj (hd1.symm.trans hm1)
    subst hmd
    have hlt : hash % sh.magd.M < sh.magd.M := Nat.mod_lt _ hinv.boundM1
    obtain ⟨⟨k, hk1, hk2, hk3⟩, _⟩ := hsome hA _ hlt
    refine ⟨k, hk1, hk2, ?_⟩
    unfold get_maglev_mark
    rw [if_neg (by have := hinv.boundM1; omega), if_pos (lt_of_lt_of_le hlt hinv.boundM),
      ← hm2 _ hlt, hk3, Int.add_comm]
  · obtain ⟨hn, hl⟩ := hinv.modulo
    obtain ⟨a, ha1, ha2⟩ := hA
    have hamem : a ∈ activeList sh.magd.active sh.magd.N := by
      simp [activeList, ha1, ha2]
    have hpos : 0 < sh.modulo.nActive := by
      rw [hn]
      exact List.length_pos_of_mem hamem
    have hlen : sh.modulo.nActive ≤ sh.magd.N := by
      rw [hn]
      have := List.length_filter_le (fun i => decide (sh.magd.active i ≠ 0))
        (List.range sh.magd.N)
      simpa [activeList] using this
    have hlt : hash % sh.modulo.nActive < sh.modulo.nActive := Nat.mod_lt _ hpos
    have hmem : sh.modulo.lookup (hash % sh.modulo.nActive)
        ∈ (List.range sh.modulo.nActive).map sh.modulo.lookup :=
      List.mem_map.mpr ⟨_, List.mem_range.mpr hlt, rfl⟩
    rw [hl] at hmem
    obtain ⟨k, hk, hkeq⟩ := List.mem_map.mp hmem
    have hk2 : k < sh.magd.N ∧ sh.magd.active k ≠ 0 := by
      simpa [activeList] using hk
    refine ⟨k, hk2.1, hk2.2, ?_⟩
    unfold get_modulo_mark
    rw [if_neg (by omega), if_pos (by have := hinv.boundN; omega), ← hkeq, Int.add_comm]

theorem activeMark_ne (sh : SharedData) (hinv : StateInv sh) (x : Int)
    (hx0 : 0 ≤ x - sh.fwOffset) (hxN : (x - sh.fwOffset).toNat < sh.magd.N)
    (hoff : sh.magd.active (x - sh.fwOffset).toNat = 0)
    (r : Option Nat) (hr : ActiveMark sh r) (m : Nat) (hm : r = some m) :
    (m : Int) ≠ x ∧ m ≠ toU32 x := by
  obtain ⟨k, hk1, hk2, hk3⟩ := hr
  have hmk : m = toU32 (sh.fwOffset + (k : Int)) := Option.some.inj (hm.symm.trans hk3)
  have hN : sh.magd.N ≤ 100 := hinv.boundN
  have hxlt : x - sh.fwOffset < (sh.magd.N : Int) := by
    have := Int.toNat_of_nonneg hx0
    omega
  have hki : (k : Int) ≠ x - sh.fwOffset := by
    intro h
    have : k = (x - sh.fwOffset).toNat := by omega
    rw [this] at hk2
    exact hk2 hoff
  have hnn : 0 ≤ (sh.fwOffset + (k : Int)) % 2 ^ 32 := Int.emod_nonneg _ (by norm_num)
  have hcast : (m : Int) = (sh.fwOffset + (k : Int)) % 2 ^ 32 := by
    rw [hmk]
    unfold toU32
    exact Int.toNat_of_nonneg hnn
  constructor
  · rw [hcast]
    omega
  · intro h
    have hnn2 : 0 ≤ x % 2 ^ 32 := Int.emod_nonneg _ (by norm_num)
    have hcast2 : ((toU32 x : Nat) : Int) = x % 2 ^ 32 := by
      unfold toU32
      exact Int.toNat_of_nonneg hnn2
    have : (m : Int) = ((toU32 x : Nat) : Int) := by rw [h]
    rw [hcast, hcast2] at this
    omega

theorem handlePacket_tcp4 (get_mark : Nat → Option Nat) (portlen : Nat)
    (payload : Nat → Nat) (plen : Nat) (hihl : ¬ 5 < byteAt payload 0 % 16)
    (hfrag : (byteAt payload 6 * 256 + byteAt payload 7) &&& (IP_OFFMASK ||| IP_MF) = 0)
    (htcp : byteAt payload 9 = IPPROTO_TCP) :
    handlePacket get_mark portlen ETH_P_IP payload plen
      = get_mark (djb2_hash (fun j => payload (12 + j)) (8 + portlen)) := by
  unfold handlePacket
  simp only [if_true, hihl, if_false, hfrag, ne_eq, not_true_eq_false, htcp]

theorem handlePacket_tcp6 (get_mark : Nat → Option Nat) (portlen : Nat)
    (payload : Nat → Nat) (plen : Nat) (htcp : byteAt payload 6 = IPPROTO_TCP) :
    handlePacket get_mark portlen ETH_P_IPV6 payload plen
      = get_mark (djb2_hash (fun j => payload (8 + j)) (32 + portlen)) := by
  have hne : ETH_P_IPV6 ≠ ETH_P_IP := by decide
  unfold handlePacket ipv6Case
  simp only [hne, if_false, if_true, htcp]

theorem reach_state (i fwOffset : Int) (args : List Int) (rand : Nat → Nat)
    (stack : ModuloAux) (cmds : List ControlCmd) :
    ∃ sh0 sh, cmdCreate i fwOffset args rand stack = some sh0 ∧
      runCommands cmds sh0 = some sh ∧ StateInv sh0 ∧ StateInv sh ∧ Populated sh ∧
      sh.fwOffset = fwOffset ∧ sh.magd.N = createN args.tail.head? := by
  obtain ⟨sh0, h0, hinv0⟩ := cmdCreate_total i fwOffset args rand stack
  obtain ⟨sh, h1, _⟩ := runCommands_total cmds sh0 hinv0
  obtain ⟨_, hpop0⟩ := cmdCreate_populated i fwOffset args rand stack sh0 h0
  obtain ⟨hinv, hpop, foff, fN, _⟩ := runCommands_reach cmds sh0 sh hinv0 hpop0 h1
  obtain ⟨_, hoff0, _, hN0⟩ := cmdCreate_frame i fwOffset args rand stack sh0 h0
  exact ⟨sh0, sh, h0, h1, hinv0, hinv, hpop, by rw [foff, hoff0], by rw [fN, hN0]⟩

theorem deactivated_stays (i fwOffset : Int) (args : List Int) (rand : Nat → Nat)
    (stack : ModuloAux) (cmds1 : List ControlCmd) (ids : List Int) (cmds2 : List ControlCmd)
    (x : Int) (hx0 : 0 ≤ x - fwOffset) (hxN : (x - fwOffset).toNat < createN args.tail.head?)
    (hmem : x ∈ ids)
    (hlater : ∀ c, c ∈ cmds2 → ∀ y, y ∈ cmdIds c → idIndex fwOffset y ≠ x - fwOffset) :
    ∃ sh0 sh, cmdCreate i fwOffset args rand stack = some sh0 ∧
      runCommands (cmds1 ++ ControlCmd.deactivate ids :: cmds2) sh0 = some sh ∧
      StateInv sh ∧ Populated sh ∧ sh.fwOffset = fwOffset ∧
      sh.magd.N = createN args.tail.head? ∧ sh.magd.active (x - fwOffset).toNat = 0 := by
  obtain ⟨sh0, sh, h0, h1, hinv0, hinv, hpop, hoff, hN⟩ :=
    reach_state i fwOffset args rand stack (cmds1 ++ ControlCmd.deactivate ids :: cmds2)
  refine ⟨sh0, sh, h0, h1, hinv, hpop, hoff, hN, ?_⟩
  -- split the run at the `deactivate` command
  rw [runCommands_append] at h1
  obtain ⟨sh1, h2, _⟩ := runCommands_total cmds1 sh0 hinv0
  obtain ⟨_, hpop0⟩ := cmdCreate_populated i fwOffset args rand stack sh0 h0
  obtain ⟨hinv1, _, foff1, fN1, _⟩ := runCommands_reach cmds1 sh0 sh1 hinv0 hpop0 h2
  obtain ⟨_, hoff0, _, hN0⟩ := cmdCreate_frame i fwOffset args rand stack sh0 h0
  have hoff1 : sh1.fwOffset = fwOffset := by rw [foff1, hoff0]
  have hN1 : sh1.magd.N = createN args.tail.head? := by rw [fN1, hN0]
  rw [h2, Option.some_bind] at h1
  obtain ⟨sh2, h3, hhit, _, ⟨_, _, _, _, foff2⟩, _, _⟩ :=
    setActivate_effect_spec 0 ids sh1 hinv1.boundM1 hinv1.boundM hinv1.boundN hinv1.perm
  obtain ⟨sh2', h3', hinv2⟩ := setActivate_total 0 ids sh1 hinv1
  have hsame : sh2' = sh2 := Option.some.inj (h3'.symm.trans h3)
  subst hsame
  have hrun : runCommands (ControlCmd.deactivate ids :: cmds2) sh1
      = (setActivate 0 ids sh1).bind (runCommands cmds2) := rfl
  rw [hrun, h3, Option.some_bind] at h1
  have hoff2 : sh2'.fwOffset = fwOffset := by rw [foff2, hoff1]
  have hidx : idIndex fwOffset x = x - fwOffset :=
    idIndex_small fwOffset x _ hx0 hxN (createN_le _)
  have hzero : sh2'.magd.active (x - fwOffset).toNat = 0 := by
    have := hhit x hmem (by rw [hoff1, hidx]; exact hx0) (by rw [hoff1, hN1, hidx]; exact hxN)
    rw [hoff1, hidx] at this
    exact this
  have hkeep := runCommands_keep x cmds2 sh2' sh hinv2 h1 (by rw [hoff2]; exact hx0)
    (by rw [hoff2]; exact hlater)
  rw [hoff2] at hkeep
  rw [hkeep, hzero]

/-- C20, counterexample: after `create -o 5 19 4` and `deactivate 5 6 7 8` no backend is
active, yet in Maglev mode the IPv4 TCP packet 10.0.0.1 -> 10.0.0.2 is given the mark 4,
which is `fwOffset - 1` and not `fwOffset + i` for an active backend `i`. -/
theorem vacant_mark_counterexample :
    ((cmdCreate (-1) 5 [19, 4] (fun k => k + 1) ⟨0, fun _ => 0⟩).bind
      (runCommands [ControlCmd.deactivate [5, 6, 7, 8]])).map
      (fun sh => (sh.fwOffset, activeList sh.magd.active sh.magd.N,
        handlePacket (get_maglev_mark sh) 0 ETH_P_IP (examplePacket 5 6) 40))
      = some (5, [], some 4) := by
  decide

/-- C20, amended: (1) when `deactivate` names `x`, with `i = x - fwOffset` in `[0, N)`, and
no later command names `x`, where `x` and the ids of the later commands are `int` values (in
`[-2^31, 2^31)`), then in the state reached `active[i] = 0`, and if a backend is
active both `get_maglev_mark` and `get_modulo_mark` return for every hash a mark that
differs from `x` (as an integer and as `uint32_t`); (2) in every state reached from `create`
in which a backend is active, both functions return for every hash, and so `handlePacket`
returns for every IPv4 / IPv6 TCP packet, the mark `fwOffset + k` (converted to `uint32_t`,
the sum itself when `0 ≤ fwOffset`) of a backend `k < N` that is active. -/
theorem marks_and_ids :
    (∀ (i fwOffset : Int) (args : List Int) (rand : Nat → Nat) (stack : ModuloAux)
        (cmds1 : List ControlCmd) (ids : List Int) (cmds2 : List ControlCmd) (x : Int),
      0 ≤ x - fwOffset → (x - fwOffset).toNat < createN args.tail.head? → x ∈ ids →
      (∀ c, c ∈ cmds2 → x ∉ cmdIds c) →
      (-2 ^ 31 ≤ x ∧ x < 2 ^ 31) →
      (∀ c, c ∈ cmds2 → ∀ y, y ∈ cmdIds c → -2 ^ 31 ≤ y ∧ y < 2 ^ 31) →
      ∃ sh0 sh, cmdCreate i fwOffset args rand stack = some sh0 ∧
        runCommands (cmds1 ++ ControlCmd.deactivate ids :: cmds2) sh0 = some sh ∧
        sh.magd.active (x - fwOffset).toNat = 0 ∧
        ((∃ a, a < sh.magd.N ∧ sh.magd.active a ≠ 0) →
          ∀ hash,
            (∃ m, get_maglev_mark sh hash = some m ∧ (m : Int) ≠ x ∧ m ≠ toU32 x) ∧
            (∃ m, get_modulo_mark sh hash = some m ∧ (m : Int) ≠ x ∧ m ≠ toU32 x))) ∧
    (∀ (i fwOffset : Int) (args : List Int) (rand : Nat → Nat) (stack : ModuloAux)
        (cmds : List ControlCmd),
      ∃ sh0 sh, cmdCreate i fwOffset args rand stack = some sh0 ∧
        runCommands cmds sh0 = some sh ∧ sh.fwOffset = fwOffset ∧
        ((∃ a, a < sh.magd.N ∧ sh.magd.active a ≠ 0) →
          (∀ hash, ActiveMark sh (get_maglev_mark sh hash) ∧
            ActiveMark sh (get_modulo_mark sh hash)) ∧
          (∀ (p : Bool) (payload : Nat → Nat) (plen : Nat),
            ¬ 5 < byteAt payload 0 % 16 →
            (byteAt payload 6 * 256 + byteAt payload 7) &&& (IP_OFFMASK ||| IP_MF) = 0 →
            byteAt payload 9 = IPPROTO_TCP →
            ActiveMark sh
              (handlePacket (get_maglev_mark sh) (cmdRun_portlen p) ETH_P_IP payload plen) ∧
            ActiveMark sh
              (handlePacket (get_modulo_mark sh) (cmdRun_portlen p) ETH_P_IP payload plen)) ∧
          (∀ (p : Bool) (payload : Nat → Nat) (plen : Nat),
            byteAt payload 6 = IPPROTO_TCP →
            ActiveMark sh
              (handlePacket (get_maglev_mark sh) (cmdRun_portlen p) ETH_P_IPV6 payload plen) ∧
            ActiveMark sh
              (handlePacket (get_modulo_mark sh) (cmdRun_portlen p) ETH_P_IPV6 payload plen)) ∧
          (0 ≤ fwOffset → fwOffset < 2 ^ 31 → ∀ k : Nat, k < sh.magd.N →
            (toU32 (fwOffset + (k : Int)) : Int) = fwOffset + (k : Int)))) := by
  constructor
  · intro i fwOffset args rand stack cmds1 ids cmds2 x hx0 hxN hmem hlater hxint hint
    have hsem : ∀ c, c ∈ cmds2 → ∀ y, y ∈ cmdIds c → idIndex fwOffset y ≠ x - fwOffset := by
      intro c hc y hy heq
      have hyx : y ≠ x := fun h => hlater c hc (h ▸ hy)
      obtain ⟨hy0, hy1⟩ := hint c hc y hy
      have hN100 : createN args.tail.head? ≤ 100 := createN_le _
      have hnat := Int.toNat_of_nonneg hx0
      unfold idIndex toI32 at heq
      omega
    obtain ⟨sh0, sh, h0, h1, hinv, hpop, hoff, hN, hzero⟩ :=
      deactivated_stays i fwOffset args rand stack cmds1 ids cmds2 x hx0 hxN hmem hsem
    refine ⟨sh0, sh, h0, h1, hzero, ?_⟩
    intro hA hash
    obtain ⟨hmag, hmod⟩ := reach_marks sh hinv hpop hA hash
    have hne := activeMark_ne sh hinv x (by rw [hoff]; exact hx0)
      (by rw [hoff, hN]; exact hxN) (by rw [hoff]; exact hzero)
    constructor
    · obtain ⟨k, hk1, hk2, hk⟩ := hmag
      exact ⟨_, hk, hne _ ⟨k, hk1, hk2, hk⟩ _ hk⟩
    · obtain ⟨k, hk1, hk2, hk⟩ := hmod
      exact ⟨_, hk, hne _ ⟨k, hk1, hk2, hk⟩ _ hk⟩
  · intro i fwOffset args rand stack cmds
    obtain ⟨sh0, sh, h0, h1, _, hinv, hpop, hoff, _⟩ :=
      reach_state i fwOffset args rand stack cmds
    refine ⟨sh0, sh, h0, h1, hoff, ?_⟩
    intro hA
    refine ⟨fun hash => reach_marks sh hinv hpop hA hash, ?_, ?_, ?_⟩
    · intro p payload plen hihl hfrag htcp
      rw [handlePacket_tcp4 _ _ _ _ hihl hfrag htcp, handlePacket_tcp4 _ _ _ _ hihl hfrag htcp]
      exact reach_marks sh hinv hpop hA _
    · intro p payload plen htcp
      rw [handlePacket_tcp6 _ _ _ _ htcp, handlePacket_tcp6 _ _ _ _ htcp]
      exact reach_marks sh hinv hpop hA _
    · intro hf0 hf1 k hk
      have hN : sh.magd.N ≤ 100 := hinv.boundN
      exact toU32_of_range _ (by omega) (by omega)

/-- Witness of the amended C20: `create 19 5`, `deactivate 2`, `activate 4` with
`fwOffset = 1`: backend
1 stays inactive, and the IPv4 TCP packet 10.0.0.1 -> 10.0.0.2 gets the mark 3 in Maglev
mode and the mark 4 in modulo mode, not 2. -/
theorem marks_and_ids_witness :
    ∃ sh0 sh, cmdCreate (-1) 1 [19, 5] (fun k => k + 1) ⟨0, fun _ => 0⟩ = some sh0 ∧
      runCommands ([] ++ ControlCmd.deactivate [2] :: [ControlCmd.activate [4]]) sh0
        = some sh ∧
      sh.magd.active ((2 : Int) - 1).toNat = 0 ∧
      (∀ hash,
        (∃ m, get_maglev_mark sh hash = some m ∧ (m : Int) ≠ 2 ∧ m ≠ toU32 2) ∧
        (∃ m, get_modulo_mark sh hash = some m ∧ (m : Int) ≠ 2 ∧ m ≠ toU32 2)) ∧
      handlePacket (get_maglev_mark sh) 0 ETH_P_IP (examplePacket 5 6) 40 = some 3 ∧
      handlePacket (get_modulo_mark sh) 0 ETH_P_IP (examplePacket 5 6) 40 = some 4 := by
  obtain ⟨sh0, sh, h0, h1, h2, h3⟩ :=
    marks_and_ids.1 (-1) 1 [19, 5] (fun k => k + 1) ⟨0, fun _ => 0⟩ [] [2]
      [ControlCmd.activate [4]] 2 (by decide) (by decide) (by decide) (by decide)
      (by decide) (by decide)
  have ha : ((cmdCreate (-1) 1 [19, 5] (fun k => k + 1) ⟨0, fun _ => 0⟩).bind
      (runCommands ([] ++ ControlCmd.deactivate [2] :: [ControlCmd.activate [4]]))).map
      (fun s => (s.magd.N, s.magd.active 0,
        handlePacket (get_maglev_mark s) 0 ETH_P_IP (examplePacket 5 6) 40,
        handlePacket (get_modulo_mark s) 0 ETH_P_IP (examplePacket 5 6) 40))
      = some (5, 1, some 3, some 4) := by decide
  rw [h0, Option.some_bind, h1] at ha
  simp only [Option.map_some', Option.some.injEq, Prod.mk.injEq] at ha
  obtain ⟨hN, hact, hm1, hm2⟩ := ha
  have hA : ∃ a, a < sh.magd.N ∧ sh.magd.active a ≠ 0 :=
    ⟨0, by rw [hN]; decide, by rw [hact]; decide⟩
  exact ⟨sh0, sh, h0, h1, h2, h3 hA, hm1, hm2⟩

end Lb
